import Mathlib

/-!
# LC-3 virtual machine (`src/lc3_win.c`)

A shallow embedding of the interpreter: the two global arrays `memory` and
`reg`, the console (an input stream and the bytes written so far) and the
loop flag are the fields of `Machine`; every C function is a Lean function
on that state.  `uint16_t` values are natural numbers reduced modulo `2^16`
at every store.
-/

namespace LC3

/-! ## Constants of the source -/

/-- Keyboard status register address. -/
@[simp] abbrev MR_KBSR : Nat := 0xFE00
/-- Keyboard data register address. -/
@[simp] abbrev MR_KBDR : Nat := 0xFE02

@[simp] abbrev TRAP_GETC : Nat := 0x20
@[simp] abbrev TRAP_OUT : Nat := 0x21
@[simp] abbrev TRAP_PUTS : Nat := 0x22
@[simp] abbrev TRAP_IN : Nat := 0x23
@[simp] abbrev TRAP_PUTSP : Nat := 0x24
@[simp] abbrev TRAP_HALT : Nat := 0x25

@[simp] abbrev R_R0 : Nat := 0
@[simp] abbrev R_R1 : Nat := 1
@[simp] abbrev R_R2 : Nat := 2
@[simp] abbrev R_R3 : Nat := 3
@[simp] abbrev R_R4 : Nat := 4
@[simp] abbrev R_R5 : Nat := 5
@[simp] abbrev R_R6 : Nat := 6
@[simp] abbrev R_R7 : Nat := 7
@[simp] abbrev R_PC : Nat := 8
@[simp] abbrev R_COND : Nat := 9
@[simp] abbrev R_COUNT : Nat := 10

@[simp] abbrev OP_BR : Nat := 0
@[simp] abbrev OP_ADD : Nat := 1
@[simp] abbrev OP_LD : Nat := 2
@[simp] abbrev OP_ST : Nat := 3
@[simp] abbrev OP_JSR : Nat := 4
@[simp] abbrev OP_AND : Nat := 5
@[simp] abbrev OP_LDR : Nat := 6
@[simp] abbrev OP_STR : Nat := 7
@[simp] abbrev OP_RTI : Nat := 8
@[simp] abbrev OP_NOT : Nat := 9
@[simp] abbrev OP_LDI : Nat := 10
@[simp] abbrev OP_STI : Nat := 11
@[simp] abbrev OP_JMP : Nat := 12
@[simp] abbrev OP_RES : Nat := 13
@[simp] abbrev OP_LEA : Nat := 14
@[simp] abbrev OP_TRAP : Nat := 15

@[simp] abbrev FL_POS : Nat := 1 <<< 0
@[simp] abbrev FL_ZRO : Nat := 1 <<< 1
@[simp] abbrev FL_NEG : Nat := 1 <<< 2

@[simp] abbrev MEMORY_MAX : Nat := 1 <<< 16
@[simp] abbrev PC_START : Nat := 0x3000

/-! ## State -/

/-- How the process stands: inside the `while (running)` loop, past it
(`running = 0`), killed by `abort()`, or outside the C semantics because a
string trap walked its pointer beyond the end of `memory`. -/
inductive Status where
  | running
  | halted
  | aborted
  | outOfBounds
  deriving DecidableEq, Repr

/-- The globals `memory[MEMORY_MAX]` and `reg[R_COUNT]`, the bytes still to
come on standard input, the bytes written to standard output, and the loop
flag. -/
structure Machine where
  memory : Nat → Nat
  reg : Nat → Nat
  input : List Nat
  output : List Nat
  status : Status

/-- Every cell and every register holds a `uint16_t`. -/
def Machine.WF (m : Machine) : Prop :=
  (∀ a, m.memory a < 65536) ∧ (∀ r, m.reg r < 65536)

/-- Assignment `reg[r] = v` to a `uint16_t` lvalue. -/
def Machine.setReg (m : Machine) (r v : Nat) : Machine :=
  { m with reg := fun i => if i = r then v % 65536 else m.reg i }

/-- Assignment `memory[a] = v` to a `uint16_t` lvalue. -/
def Machine.setMem (m : Machine) (a v : Nat) : Machine :=
  { m with memory := fun i => if i = a then v % 65536 else m.memory i }

/-- Call of `putc(c, stdout)`: the argument is written as an `unsigned char`. -/
def Machine.putc (m : Machine) (c : Int) : Machine :=
  { m with output := m.output ++ [(c % 256).toNat] }

/-- Writes a whole string, as `printf` and `puts` do. -/
def Machine.print (m : Machine) (s : List Nat) : Machine :=
  { m with output := m.output ++ s }

/-- Conversion of an `int` to `uint16_t`. -/
def to_uint16 (v : Int) : Nat := (v % 65536).toNat

/-- Conversion of an `int` to `char`; `char` is a signed byte on the
compilers this Windows source is written for. -/
def to_char (v : Int) : Int := (v + 128) % 256 - 128

/-- Call of `getchar()`: the next byte of standard input, or `EOF` (-1). -/
def getchar (m : Machine) : Int × Machine :=
  match m.input with
  | [] => (-1, m)
  | b :: rest => (((b % 256 : Nat) : Int), { m with input := rest })

/-- A key is waiting: the console handle is signalled and `_kbhit()` holds. -/
def check_key (m : Machine) : Nat :=
  if m.input.isEmpty then 0 else 1

/-! ## Helper functions of the source -/

def update_flags (r : Nat) (m : Machine) : Machine :=
  if m.reg r = 0 then
    m.setReg R_COND FL_ZRO
  else if m.reg r >>> 15 ≠ 0 then
    m.setReg R_COND FL_NEG
  else
    m.setReg R_COND FL_POS

def sign_extend (x : Nat) (bit_count : Nat) : Nat :=
  if (x >>> (bit_count - 1)) &&& 1 ≠ 0 then
    (x ||| (0xFFFF <<< bit_count)) % 65536
  else
    x

def swap16 (x : Nat) : Nat :=
  ((x <<< 8) ||| (x >>> 8)) % 65536

def mem_write (address val : Nat) (m : Machine) : Machine :=
  m.setMem (address % 65536) val

def mem_read (address : Nat) (m : Machine) : Nat × Machine :=
  let address := address % 65536
  if address = MR_KBSR then
    if check_key m ≠ 0 then
      let m1 := m.setMem MR_KBSR (1 <<< 15)
      let g := getchar m1
      let m2 := g.2.setMem MR_KBDR (to_uint16 g.1)
      (m2.memory address, m2)
    else
      let m1 := m.setMem MR_KBSR 0
      (m1.memory address, m1)
  else
    (m.memory address, m)

/-! ## Image loader -/

/-- Call of `fread(p, sizeof(uint16_t), max_read, file)`: the complete
two-byte items of the stream, at most `max_read` of them, each as the
little-endian host sees the two bytes.  A trailing odd byte is no item. -/
def fread : List Nat → Nat → List Nat
  | b0 :: b1 :: rest, max_read + 1 => (b0 % 256 + 256 * (b1 % 256)) :: fread rest max_read
  | _, _ => []

/-- The items `fread` delivered, laid down from `p` on. -/
def store_items : List Nat → Nat → (Nat → Nat) → (Nat → Nat)
  | [], _, memory => memory
  | x :: xs, p, memory => store_items xs (p + 1) (fun i => if i = p then x else memory i)

/-- Loop `while (read-- > 0) { *p = swap16(*p); ++p; }`. -/
def swap_loop : Nat → Nat → (Nat → Nat) → (Nat → Nat)
  | 0, _, memory => memory
  | read + 1, p, memory =>
    swap_loop read (p + 1) (fun i => if i = p then swap16 (memory p) else memory i)

/-- Number of items the second `fread` of `read_image_file` returns for a
stream whose first two bytes are the origin. -/
def words_read (file : List Nat) : Nat :=
  match file with
  | b0 :: b1 :: rest =>
    let origin := swap16 (b0 % 256 + 256 * (b1 % 256))
    let max_read := (MEMORY_MAX - origin) % 65536
    (fread rest max_read).length
  | _ => 0

/-- The loader on the bytes of the file.  `none` when the stream is too
short to hold the origin, which the source then reads uninitialised. -/
def read_image_file (file : List Nat) (memory : Nat → Nat) : Option (Nat → Nat) :=
  match file with
  | b0 :: b1 :: rest =>
    let origin := swap16 (b0 % 256 + 256 * (b1 % 256))
    let max_read := (MEMORY_MAX - origin) % 65536
    let items := fread rest max_read
    let read := items.length
    some (swap_loop read origin (store_items items origin memory))
  | _ => none

/-! ## Trap routines -/

/-- Loop `while (*c) { putc((char)*c, stdout); ++c; }` of `TRAP_PUTS`, with
`left` cells between `c` and the end of `memory`.  The flag is false when
the pointer ran off the array without meeting a zero cell. -/
def puts_loop (memory : Nat → Nat) : Nat → Nat → List Nat × Bool
  | 0, _ => ([], false)
  | left + 1, c =>
    if memory c ≠ 0 then
      let r := puts_loop memory left (c + 1)
      (memory c % 256 :: r.1, r.2)
    else
      ([], true)

/-- Loop of `TRAP_PUTSP`: low byte, then the high byte when it is not zero. -/
def putsp_loop (memory : Nat → Nat) : Nat → Nat → List Nat × Bool
  | 0, _ => ([], false)
  | left + 1, c =>
    if memory c ≠ 0 then
      let char1 := memory c &&& 0xFF
      let char2 := (memory c >>> 8) % 256
      let r := putsp_loop memory left (c + 1)
      (if char2 ≠ 0 then char1 :: char2 :: r.1 else char1 :: r.1, r.2)
    else
      ([], true)

/-- Bytes of `"Enter a character: "`. -/
def prompt : List Nat :=
  [69, 110, 116, 101, 114, 32, 97, 32, 99, 104, 97, 114, 97, 99, 116, 101, 114, 58, 32]

/-- Bytes `puts("HALT")` writes: the text and a newline. -/
def halt_notice : List Nat := [72, 65, 76, 84, 10]

/-- Body of `case OP_TRAP`, after the fetch. -/
def trap (instr : Nat) (m : Machine) : Machine :=
  let m := m.setReg R_R7 (m.reg R_PC)
  match instr &&& 0xFF with
  | 0x20 => -- TRAP_GETC
    let g := getchar m
    update_flags R_R0 (g.2.setReg R_R0 (to_uint16 g.1))
  | 0x21 => -- TRAP_OUT
    m.putc (to_char (m.reg R_R0))
  | 0x22 => -- TRAP_PUTS
    let r := puts_loop m.memory (MEMORY_MAX - m.reg R_R0) (m.reg R_R0)
    let m := m.print r.1
    if r.2 then m else { m with status := Status.outOfBounds }
  | 0x23 => -- TRAP_IN
    let m := m.print prompt
    let g := getchar m
    let c := to_char g.1
    let m := g.2.putc c
    update_flags R_R0 (m.setReg R_R0 (to_uint16 c))
  | 0x24 => -- TRAP_PUTSP
    let r := putsp_loop m.memory (MEMORY_MAX - m.reg R_R0) (m.reg R_R0)
    let m := m.print r.1
    if r.2 then m else { m with status := Status.outOfBounds }
  | 0x25 => -- TRAP_HALT
    { m.print halt_notice with status := Status.halted }
  | _ => m

/-! ## Fetch and execute -/

/-- The fetch `instr = mem_read(reg[R_PC]++)`. -/
def fetch (m : Machine) : Nat × Machine :=
  let pc := m.reg R_PC
  mem_read pc (m.setReg R_PC (pc + 1))

/-- The `switch (op)` of the main loop. -/
def execute (instr : Nat) (m : Machine) : Machine :=
  let op := instr >>> 12
  match op with
  | 1 => -- OP_ADD
    let r0 := (instr >>> 9) &&& 0x7
    let r1 := (instr >>> 6) &&& 0x7
    let imm_flag := (instr >>> 5) &&& 0x1
    let m :=
      if imm_flag ≠ 0 then
        let imm5 := sign_extend (instr &&& 0x1F) 5
        m.setReg r0 (m.reg r1 + imm5)
      else
        let r2 := instr &&& 0x7
        m.setReg r0 (m.reg r1 + m.reg r2)
    update_flags r0 m
  | 5 => -- OP_AND
    let r0 := (instr >>> 9) &&& 0x7
    let r1 := (instr >>> 6) &&& 0x7
    let imm_flag := (instr >>> 5) &&& 0x1
    let m :=
      if imm_flag ≠ 0 then
        let imm5 := sign_extend (instr &&& 0x1F) 5
        m.setReg r0 (m.reg r1 &&& imm5)
      else
        let r2 := instr &&& 0x7
        m.setReg r0 (m.reg r1 &&& m.reg r2)
    update_flags r0 m
  | 9 => -- OP_NOT
    let r0 := (instr >>> 9) &&& 0x7
    let r1 := (instr >>> 6) &&& 0x7
    update_flags r0 (m.setReg r0 (m.reg r1 ^^^ 0xFFFF))
  | 0 => -- OP_BR
    let pc_offset := sign_extend (instr &&& 0x1FF) 9
    let cond_flag := (instr >>> 9) &&& 0x7
    if cond_flag &&& m.reg R_COND ≠ 0 then
      m.setReg R_PC (m.reg R_PC + pc_offset)
    else
      m
  | 12 => -- OP_JMP
    let r1 := (instr >>> 6) &&& 0x7
    m.setReg R_PC (m.reg r1)
  | 4 => -- OP_JSR
    let long_flag := (instr >>> 11) &&& 1
    let m := m.setReg R_R7 (m.reg R_PC)
    if long_flag ≠ 0 then
      let long_pc_offset := sign_extend (instr &&& 0x7FF) 11
      m.setReg R_PC (m.reg R_PC + long_pc_offset)
    else
      let r1 := (instr >>> 6) &&& 0x7
      m.setReg R_PC (m.reg r1)
  | 2 => -- OP_LD
    let r0 := (instr >>> 9) &&& 0x7
    let pc_offset := sign_extend (instr &&& 0x1FF) 9
    let v := mem_read (m.reg R_PC + pc_offset) m
    update_flags r0 (v.2.setReg r0 v.1)
  | 10 => -- OP_LDI
    let r0 := (instr >>> 9) &&& 0x7
    let pc_offset := sign_extend (instr &&& 0x1FF) 9
    let a := mem_read (m.reg R_PC + pc_offset) m
    let v := mem_read a.1 a.2
    update_flags r0 (v.2.setReg r0 v.1)
  | 6 => -- OP_LDR
    let r0 := (instr >>> 9) &&& 0x7
    let r1 := (instr >>> 6) &&& 0x7
    let pc_offset := sign_extend (instr &&& 0x3F) 6
    let v := mem_read (m.reg r1 + pc_offset) m
    update_flags r0 (v.2.setReg r0 v.1)
  | 14 => -- OP_LEA
    let r0 := (instr >>> 9) &&& 0x7
    let pc_offset := sign_extend (instr &&& 0x1FF) 9
    update_flags r0 (m.setReg r0 (m.reg R_PC + pc_offset))
  | 3 => -- OP_ST
    let r0 := (instr >>> 9) &&& 0x7
    let pc_offset := sign_extend (instr &&& 0x1FF) 9
    mem_write (m.reg R_PC + pc_offset) (m.reg r0) m
  | 11 => -- OP_STI
    let r0 := (instr >>> 9) &&& 0x7
    let pc_offset := sign_extend (instr &&& 0x1FF) 9
    let a := mem_read (m.reg R_PC + pc_offset) m
    mem_write a.1 (a.2.reg r0) a.2
  | 7 => -- OP_STR
    let r0 := (instr >>> 9) &&& 0x7
    let r1 := (instr >>> 6) &&& 0x7
    let pc_offset := sign_extend (instr &&& 0x3F) 6
    mem_write (m.reg r1 + pc_offset) (m.reg r0) m
  | 15 => -- OP_TRAP
    trap instr m
  | 13 => -- OP_RES
    { m with status := Status.aborted }
  | 8 => -- OP_RTI
    { m with status := Status.aborted }
  | _ =>
    { m with status := Status.aborted }

/-- One turn of the `while (running)` loop: fetch, decode, execute. -/
def step (m : Machine) : Machine :=
  let f := fetch m
  execute f.1 f.2

/-- The loop `while (running) { ... }`, cut off after `n` turns. -/
def run : Nat → Machine → Machine
  | 0, m => m
  | n + 1, m => if m.status = Status.running then run n (step m) else m

/-- The state `main` enters the loop with: the zero-initialised registers
with `COND = FL_ZRO` and `PC = PC_START`, whatever the images left in
memory, nothing written yet. -/
def boot (memory : Nat → Nat) (input : List Nat) : Machine :=
  { memory := memory
    reg := fun i => if i = R_PC then PC_START else if i = R_COND then FL_ZRO else 0
    input := input
    output := []
    status := Status.running }

/-- States the loop can be in at the top of a turn. -/
inductive Reachable : Machine → Prop where
  | boot (memory : Nat → Nat) (input : List Nat) : Reachable (boot memory input)
  | step (m : Machine) : Reachable m → m.status = Status.running → Reachable (step m)

/-! ## Vocabulary of the specification -/

/-- The integer a field `v` of `w` bits stands for in two's complement. -/
def asSigned (w v : Nat) : Int :=
  if v.testBit (w - 1) then (v : Int) - 2 ^ w else (v : Int)

/-- Bits `lo + width - 1 .. lo` of an instruction word. -/
def field (instr lo width : Nat) : Nat :=
  instr / 2 ^ lo % 2 ^ width

/-- The step from `m` to `m'` wrote `v` to the cell `ea` and nothing else to
memory, and left `R0..R7` and `COND` alone. -/
def stores_only (m m' : Machine) (ea v : Nat) : Prop :=
  m'.memory ea = v ∧ (∀ a, a ≠ ea → m'.memory a = m.memory a) ∧
  (∀ r, r < 8 → m'.reg r = m.reg r) ∧ m'.reg R_COND = m.reg R_COND

/-- Bytes PUTS is specified to write for the `k` cells from `a` on: the low
eight bits of each. -/
def low_bytes (memory : Nat → Nat) (a k : Nat) : List Nat :=
  (List.range k).map (fun i => memory (a + i) % 256)

/-- Bytes PUTSP is specified to write for the `k` cells from `a` on: of each
cell the low byte, then the high byte when it is not zero. -/
def packed_bytes (memory : Nat → Nat) (a k : Nat) : List Nat :=
  ((List.range k).map (fun i =>
    if memory (a + i) / 256 ≠ 0 then [memory (a + i) % 256, memory (a + i) / 256]
    else [memory (a + i) % 256])).flatten

/-- The condition register holds one of the three flags. -/
def one_flag (c : Nat) : Prop :=
  c = FL_POS ∨ c = FL_ZRO ∨ c = FL_NEG

/-- The flag `update_flags` is specified to choose for a written value `v`. -/
def flag_of (v : Nat) : Nat :=
  if v = 0 then FL_ZRO else if v.testBit 15 then FL_NEG else FL_POS

/-! ## Concrete programs and states -/

/-- Memory holding `ADD R0, R1, #-1` (`0x107F`) at `0x3000`, zero elsewhere. -/
def prog_add : Nat → Nat := fun a => if a = 0x3000 then 0x107F else 0

/-- Memory holding `NOT R0, R0` (`0x903F`) at `0x3000`, zero elsewhere. -/
def prog_not : Nat → Nat := fun a => if a = 0x3000 then 0x903F else 0

/-- Memory holding `LEA R0, #2` (`0xE002`) at `0x3000`, zero elsewhere. -/
def prog_lea : Nat → Nat := fun a => if a = 0x3000 then 0xE002 else 0

/-- Memory holding `BRz #5` (`0x0405`) at `0x3000`, zero elsewhere. -/
def prog_br : Nat → Nat := fun a => if a = 0x3000 then 0x0405 else 0

/-- Memory holding `JSRR R7` (`0x41C0`) at `0x3000`, zero elsewhere. -/
def prog_jsrr : Nat → Nat := fun a => if a = 0x3000 then 0x41C0 else 0

/-- Memory holding `ST R1, #2` (`0x3202`) at `0x3000`, zero elsewhere. -/
def prog_st : Nat → Nat := fun a => if a = 0x3000 then 0x3202 else 0

/-- Memory holding `STR R1, R2, #1` (`0x7281`) at `0x3000`, zero elsewhere. -/
def prog_str : Nat → Nat := fun a => if a = 0x3000 then 0x7281 else 0

/-- Memory holding `STI R1, #2` (`0xB202`) at `0x3000` and the pointer
`0x5000` in the cell `0x3003`, zero elsewhere. -/
def prog_sti : Nat → Nat :=
  fun a => if a = 0x3000 then 0xB202 else if a = 0x3003 then 0x5000 else 0

/-- The initial state with `R1`, `R2` and `R7` preset. -/
def preset (memory : Nat → Nat) (input : List Nat) (r1 r2 r7 : Nat) : Machine :=
  { boot memory input with
    reg := fun i =>
      if i = R_PC then PC_START else if i = R_COND then FL_ZRO
      else if i = R_R1 then r1 else if i = R_R2 then r2 else if i = R_R7 then r7 else 0 }

/-- The image of the specification: origin `0x3000`, then the words 1 and 2. -/
def image_two_words : List Nat := [0x30, 0x00, 0x00, 0x01, 0x00, 0x02]

/-- An image with origin `0x0000` and the one word `0x1234`. -/
def image_at_zero : List Nat := [0x00, 0x00, 0x12, 0x34]

/-- The initial state with `R0` preset. -/
def with_r0 (memory : Nat → Nat) (input : List Nat) (r0 : Nat) : Machine :=
  { boot memory input with
    reg := fun i =>
      if i = R_PC then PC_START else if i = R_COND then FL_ZRO
      else if i = R_R0 then r0 else 0 }

/-- Memory holding `TRAP 0x22` (PUTS) at `0x3000` and the cells `0x0048`,
`0x0069`, `0x0000` from `0x4000` on, zero elsewhere. -/
def prog_puts : Nat → Nat :=
  fun a => if a = 0x3000 then 0xF022 else if a = 0x4000 then 0x0048
    else if a = 0x4001 then 0x0069 else 0

/-- Memory holding `TRAP 0x24` (PUTSP) at `0x3000` and the cells `0x6948`,
`0x0021`, `0x0000` from `0x4000` on, zero elsewhere. -/
def prog_putsp : Nat → Nat :=
  fun a => if a = 0x3000 then 0xF024 else if a = 0x4000 then 0x6948
    else if a = 0x4001 then 0x0021 else 0

/-- Memory holding `TRAP 0x25` (HALT) at `0x3000`, zero elsewhere. -/
def prog_halt : Nat → Nat := fun a => if a = 0x3000 then 0xF025 else 0

/-- Memory holding the RTI word `0x8123` at `0x3000`, zero elsewhere. -/
def prog_rti : Nat → Nat := fun a => if a = 0x3000 then 0x8123 else 0

/-- Memory holding the reserved word `0xDFFF` at `0x3000`, zero elsewhere. -/
def prog_res : Nat → Nat := fun a => if a = 0x3000 then 0xDFFF else 0

/-- Memory holding `TRAP 0x26`, a vector no routine is defined for, at
`0x3000`, zero elsewhere. -/
def prog_trap26 : Nat → Nat := fun a => if a = 0x3000 then 0xF026 else 0

/-- Memory holding `TRAP 0x23` (IN) at `0x3000`, zero elsewhere. -/
def prog_in : Nat → Nat := fun a => if a = 0x3000 then 0xF023 else 0

/-- Memory holding `JSR #0xFF` (`0x48FF`) at `0x3000` and `JMP R7`
(`0xC1C0`) at the target `0x3100`, zero elsewhere. -/
def prog_call : Nat → Nat :=
  fun a => if a = 0x3000 then 0x48FF else if a = 0x3100 then 0xC1C0 else 0

/-- Memory holding `LDI R0, #2` (`0xA002`) at `0x3000`, the pointer `0x5000`
in the cell `0x3003` and `0x1234` in the cell `0x5000`, zero elsewhere. -/
def prog_ldi : Nat → Nat :=
  fun a => if a = 0x3000 then 0xA002 else if a = 0x3003 then 0x5000
    else if a = 0x5000 then 0x1234 else 0

/-- Memory holding `BRnzp #5` (`0x0E05`) at `0x3000`, zero elsewhere. -/
def prog_br_always : Nat → Nat := fun a => if a = 0x3000 then 0x0E05 else 0

/-- Memory holding a BR with the empty mask and offset 5 (`0x0005`) at
`0x3000`, zero elsewhere. -/
def prog_br_never : Nat → Nat := fun a => if a = 0x3000 then 0x0005 else 0

/-! ## Bit masks and shifts as arithmetic -/

theorem and_1 (x : Nat) : x &&& 1 = x % 2 := Nat.and_one_is_mod x

theorem and_7 (x : Nat) : x &&& 7 = x % 8 := Nat.and_pow_two_sub_one_eq_mod x 3

theorem and_0x1F (x : Nat) : x &&& 31 = x % 32 := Nat.and_pow_two_sub_one_eq_mod x 5

theorem and_0x3F (x : Nat) : x &&& 63 = x % 64 := Nat.and_pow_two_sub_one_eq_mod x 6

theorem and_0xFF (x : Nat) : x &&& 255 = x % 256 := Nat.and_pow_two_sub_one_eq_mod x 8

theorem and_0x1FF (x : Nat) : x &&& 511 = x % 512 := Nat.and_pow_two_sub_one_eq_mod x 9

theorem and_0x7FF (x : Nat) : x &&& 2047 = x % 2048 := Nat.and_pow_two_sub_one_eq_mod x 11

/-- Or-ing the ones above a field of `w` bits adds them. -/
theorem lor_high_ones (w x : Nat) (hx : x < 2 ^ w) :
    x ||| (0xFFFF <<< w) = 2 ^ w * 0xFFFF + x := by
  rw [Nat.shiftLeft_eq, Nat.lor_comm, Nat.mul_comm, ← Nat.mul_add_lt_is_or hx]

/-- Top bit of a field of `w` bits. -/
theorem testBit_top (w x : Nat) (hw : 1 ≤ w) (hx : x < 2 ^ w) :
    x.testBit (w - 1) = decide (2 ^ (w - 1) ≤ x) := by
  rw [Nat.testBit_to_div_mod]
  have h2 : 2 ^ w = 2 ^ (w - 1) * 2 := by
    rw [← pow_succ]; congr 1; omega
  have hpos : 0 < 2 ^ (w - 1) := by positivity
  have hlt : x / 2 ^ (w - 1) < 2 := by
    rw [Nat.div_lt_iff_lt_mul hpos]; omega
  have hiff : x / 2 ^ (w - 1) % 2 = 1 ↔ 2 ^ (w - 1) ≤ x := by
    rw [Nat.mod_eq_of_lt hlt]
    constructor
    · intro h
      by_contra hc
      rw [Nat.div_eq_of_lt (by omega)] at h
      omega
    · intro h
      have : 1 ≤ x / 2 ^ (w - 1) := (Nat.one_le_div_iff hpos).2 h
      omega
  simp only [hiff]

/-! ## sign_extend -/

theorem sign_extend_eq (w x : Nat) (hw : w = 5 ∨ w = 6 ∨ w = 9 ∨ w = 11) (hx : x < 2 ^ w) :
    sign_extend x w = if x < 2 ^ (w - 1) then x else x + (2 ^ 16 - 2 ^ w) := by
  unfold sign_extend
  rw [lor_high_ones w x hx, and_1, Nat.shiftRight_eq_div_pow]
  rcases hw with rfl | rfl | rfl | rfl <;> norm_num at hx ⊢ <;> split_ifs <;> omega

theorem sign_extend_lt (w x : Nat) (hw : w = 5 ∨ w = 6 ∨ w = 9 ∨ w = 11) (hx : x < 2 ^ w) :
    sign_extend x w < 2 ^ 16 := by
  rw [sign_extend_eq w x hw hx]
  rcases hw with rfl | rfl | rfl | rfl <;> norm_num at hx ⊢ <;> split_ifs <;> omega

/-- C2. On a field `x` of `w` bits, `w` one of 5, 6, 9, 11, `sign_extend`
returns `x` when the top bit `w-1` is clear and `x + (2^16 - 2^w)` when it is
set, and the result read as a signed 16-bit integer is `x` read as a signed
`w`-bit integer. -/
theorem sign_extend_widens (w x : Nat) (hw : w = 5 ∨ w = 6 ∨ w = 9 ∨ w = 11)
    (hx : x < 2 ^ w) :
    (x.testBit (w - 1) = false → sign_extend x w = x) ∧
    (x.testBit (w - 1) = true → sign_extend x w = x + (2 ^ 16 - 2 ^ w)) ∧
    asSigned 16 (sign_extend x w) = asSigned w x := by
  have hw1 : 1 ≤ w := by omega
  have hse := sign_extend_eq w x hw hx
  have htb := testBit_top w x hw1 hx
  have hlt := sign_extend_lt w x hw hx
  have htb16 := testBit_top 16 (sign_extend x w) (by norm_num) hlt
  refine ⟨?_, ?_, ?_⟩
  · intro h
    rw [htb] at h
    simp only [decide_eq_false_iff_not, not_le] at h
    rw [hse, if_pos h]
  · intro h
    rw [htb] at h
    simp only [decide_eq_true_eq] at h
    rw [hse, if_neg (by omega)]
  · unfold asSigned
    rw [htb, htb16, hse]
    rcases hw with rfl | rfl | rfl | rfl <;> norm_num at hx ⊢ <;> split_ifs <;> omega

/-- The two fields the specification names: all ones is -1 (`0xFFFF`), and
`0b01111` stays `0x000F`. -/
theorem sign_extend_widens_witness :
    (0b11111 < 2 ^ 5 ∧ 0b01111 < 2 ^ 5) ∧
    sign_extend 0b11111 5 = 0xFFFF ∧ sign_extend 0b01111 5 = 0x000F ∧
    asSigned 16 (sign_extend 0b11111 5) = -1 := by
  have h1 := sign_extend_widens 5 0b11111 (Or.inl rfl) (by decide)
  have h2 := sign_extend_widens 5 0b01111 (Or.inl rfl) (by decide)
  refine ⟨by decide, h1.2.1 (by decide), h2.1 (by decide), ?_⟩
  rw [h1.2.2]; decide

/-! ## Field-wise effect of the state updates -/

@[simp] theorem setReg_reg (m : Machine) (r v i : Nat) :
    (m.setReg r v).reg i = if i = r then v % 65536 else m.reg i := rfl

@[simp] theorem setReg_memory (m : Machine) (r v : Nat) : (m.setReg r v).memory = m.memory := rfl

@[simp] theorem setReg_input (m : Machine) (r v : Nat) : (m.setReg r v).input = m.input := rfl

@[simp] theorem setReg_output (m : Machine) (r v : Nat) : (m.setReg r v).output = m.output := rfl

@[simp] theorem setReg_status (m : Machine) (r v : Nat) : (m.setReg r v).status = m.status := rfl

@[simp] theorem setMem_memory (m : Machine) (a v i : Nat) :
    (m.setMem a v).memory i = if i = a then v % 65536 else m.memory i := rfl

@[simp] theorem setMem_reg (m : Machine) (a v : Nat) : (m.setMem a v).reg = m.reg := rfl

@[simp] theorem setMem_input (m : Machine) (a v : Nat) : (m.setMem a v).input = m.input := rfl

@[simp] theorem setMem_output (m : Machine) (a v : Nat) : (m.setMem a v).output = m.output := rfl

@[simp] theorem setMem_status (m : Machine) (a v : Nat) : (m.setMem a v).status = m.status := rfl

@[simp] theorem putc_reg (m : Machine) (c : Int) : (m.putc c).reg = m.reg := rfl

@[simp] theorem putc_memory (m : Machine) (c : Int) : (m.putc c).memory = m.memory := rfl

@[simp] theorem print_reg (m : Machine) (s : List Nat) : (m.print s).reg = m.reg := rfl

@[simp] theorem print_memory (m : Machine) (s : List Nat) : (m.print s).memory = m.memory := rfl

@[simp] theorem getchar_reg (m : Machine) : (getchar m).2.reg = m.reg := by
  unfold getchar; split <;> rfl

@[simp] theorem getchar_memory (m : Machine) : (getchar m).2.memory = m.memory := by
  unfold getchar; split <;> rfl

@[simp] theorem mem_read_reg (a : Nat) (m : Machine) : (mem_read a m).2.reg = m.reg := by
  unfold mem_read; simp only []; split_ifs <;> simp

@[simp] theorem mem_write_reg (a v : Nat) (m : Machine) : (mem_write a v m).reg = m.reg := rfl

@[simp] theorem fetch_reg (m : Machine) (i : Nat) :
    (fetch m).2.reg i = if i = R_PC then (m.reg R_PC + 1) % 65536 else m.reg i := by
  unfold fetch; simp

theorem and_7_ne_cond (x : Nat) : x &&& 7 ≠ R_COND := by
  rw [and_7]; simp only [R_COND]; omega

/-! ## Condition flags -/

theorem update_flags_cond (r : Nat) (m : Machine) :
    one_flag ((update_flags r m).reg R_COND) := by
  unfold update_flags one_flag
  split_ifs <;> simp

theorem update_flags_reg (r i : Nat) (m : Machine) (h : i ≠ R_COND) :
    (update_flags r m).reg i = m.reg i := by
  unfold update_flags
  simp only [R_COND] at h
  split_ifs <;> simp [h]

theorem trap_cond (instr : Nat) (m : Machine) :
    (trap instr m).reg R_COND = m.reg R_COND ∨ one_flag ((trap instr m).reg R_COND) := by
  unfold trap
  simp only []
  split
  all_goals first
    | exact Or.inr (update_flags_cond _ _)
    | (left; (try split_ifs) <;> simp)

theorem execute_cond (instr : Nat) (m : Machine) :
    (execute instr m).reg R_COND = m.reg R_COND ∨ one_flag ((execute instr m).reg R_COND) := by
  unfold execute
  simp only []
  split
  all_goals first
    | exact Or.inr (update_flags_cond _ _)
    | exact trap_cond _ _
    | (left; (try split_ifs) <;> simp)

theorem step_cond (m : Machine) :
    (step m).reg R_COND = m.reg R_COND ∨ one_flag ((step m).reg R_COND) := by
  have h := execute_cond (fetch m).1 (fetch m).2
  have hf : (fetch m).2.reg R_COND = m.reg R_COND := by simp
  unfold step
  simpa only [hf] using h

/-- C1. In every state reachable from the initial state (any memory, any
input) by the fetch-execute step, `COND` is `FL_POS`, `FL_ZRO` or `FL_NEG`;
and no instruction word, in any state, leaves in `COND` anything but its old
value or one of these three. -/
theorem cond_always_one_flag (m : Machine) (h : Reachable m) :
    one_flag (m.reg R_COND) ∧
    ∀ (instr : Nat) (s : Machine),
      (execute instr s).reg R_COND = s.reg R_COND ∨
        one_flag ((execute instr s).reg R_COND) := by
  refine ⟨?_, execute_cond⟩
  induction h with
  | boot memory input => right; left; rfl
  | step s _ _ ih =>
    rcases step_cond s with h | h
    · rw [h]; exact ih
    · exact h

/-- After `ADD R0, R1, #-1` from the initial state `R0` is `0xFFFF` and the
flag is `FL_NEG`. -/
theorem cond_always_one_flag_witness :
    Reachable (step (boot prog_add [])) ∧
    (step (boot prog_add [])).reg R_COND = FL_NEG ∧
    one_flag ((step (boot prog_add [])).reg R_COND) :=
  ⟨Reachable.step _ (Reachable.boot _ _) rfl, by decide,
   (cond_always_one_flag _ (Reachable.step _ (Reachable.boot _ _) rfl)).1⟩

/-- What `update_flags` leaves in `COND` for a 16-bit register value. -/
theorem update_flags_spec (r : Nat) (m : Machine) (hr : r ≠ R_COND) (hlt : m.reg r < 65536) :
    (update_flags r m).reg R_COND = flag_of ((update_flags r m).reg r) := by
  rw [update_flags_reg r r m hr]
  have htb := testBit_top 16 (m.reg r) (by norm_num) hlt
  unfold update_flags flag_of
  rw [Nat.shiftRight_eq_div_pow]
  norm_num at htb
  rw [htb]
  by_cases h0 : m.reg r = 0
  · simp [h0]
  · by_cases h1 : 32768 ≤ m.reg r
    · have : m.reg r / 32768 ≠ 0 := by omega
      simp [h0, h1, this]
    · have : m.reg r / 32768 = 0 := by omega
      simp [h0, h1, this]

theorem update_flags_setReg (r v : Nat) (m : Machine) (hr : r ≠ R_COND) :
    (update_flags r (m.setReg r v)).reg R_COND =
      flag_of ((update_flags r (m.setReg r v)).reg r) := by
  apply update_flags_spec r _ hr
  simp
  exact Nat.mod_lt _ (by norm_num)

/-- C3. When the fetched instruction is ADD, AND, NOT, LD, LDI, LDR or LEA,
the step leaves in `COND` the flag of the new value `v` of the destination
register (bits 11..9): `FL_ZRO` if `v = 0`, else `FL_NEG` if bit 15 of `v` is
set, else `FL_POS`. -/
theorem flags_follow_destination (m : Machine)
    (hop : (fetch m).1 >>> 12 = OP_ADD ∨ (fetch m).1 >>> 12 = OP_AND ∨
      (fetch m).1 >>> 12 = OP_NOT ∨ (fetch m).1 >>> 12 = OP_LD ∨
      (fetch m).1 >>> 12 = OP_LDI ∨ (fetch m).1 >>> 12 = OP_LDR ∨
      (fetch m).1 >>> 12 = OP_LEA) :
    (step m).reg R_COND = flag_of ((step m).reg (field (fetch m).1 9 3)) := by
  have hf : field (fetch m).1 9 3 = (fetch m).1 >>> 9 &&& 7 := by
    rw [and_7, Nat.shiftRight_eq_div_pow]; rfl
  rw [hf]
  unfold step
  simp only []
  generalize (fetch m).1 = instr at hop ⊢
  generalize (fetch m).2 = s
  have hne := and_7_ne_cond (instr >>> 9)
  rcases hop with h | h | h | h | h | h | h <;>
    simp only [OP_ADD, OP_AND, OP_NOT, OP_LD, OP_LDI, OP_LDR, OP_LEA] at h <;>
    simp only [execute, h] <;> (try split_ifs) <;> exact update_flags_setReg _ _ _ hne

/-- The destination of NOT in the initial state: `R0` becomes `0xFFFF`, the
flag `FL_NEG`. -/
theorem flags_follow_destination_witness :
    (fetch (boot prog_not [])).1 >>> 12 = OP_NOT ∧
    (step (boot prog_not [])).reg R_R0 = 0xFFFF ∧
    (step (boot prog_not [])).reg R_COND = FL_NEG ∧
    (step (boot prog_not [])).reg R_COND =
      flag_of ((step (boot prog_not [])).reg (field (fetch (boot prog_not [])).1 9 3)) :=
  ⟨by decide, by decide, by decide,
   flags_follow_destination (boot prog_not []) (Or.inr (Or.inr (Or.inl (by decide))))⟩

/-! ## Decoding and plain memory reads -/

theorem field_9_3 (instr : Nat) : instr >>> 9 &&& 7 = field instr 9 3 := by
  rw [and_7, Nat.shiftRight_eq_div_pow]; rfl
theorem field_6_3 (instr : Nat) : instr >>> 6 &&& 7 = field instr 6 3 := by
  rw [and_7, Nat.shiftRight_eq_div_pow]; rfl
theorem field_0_3 (instr : Nat) : instr &&& 7 = field instr 0 3 := by
  rw [and_7]; simp [field]
theorem field_0_5 (instr : Nat) : instr &&& 31 = field instr 0 5 := by
  rw [and_0x1F]; simp [field]
theorem field_0_6 (instr : Nat) : instr &&& 63 = field instr 0 6 := by
  rw [and_0x3F]; simp [field]
theorem field_0_9 (instr : Nat) : instr &&& 511 = field instr 0 9 := by
  rw [and_0x1FF]; simp [field]
theorem field_0_11 (instr : Nat) : instr &&& 2047 = field instr 0 11 := by
  rw [and_0x7FF]; simp [field]
theorem field_0_8 (instr : Nat) : instr &&& 255 = field instr 0 8 := by
  rw [and_0xFF]; simp [field]
theorem bit_5 (instr : Nat) : (instr >>> 5 &&& 1 ≠ 0) ↔ instr.testBit 5 = true := by
  rw [and_1, Nat.shiftRight_eq_div_pow, Nat.testBit_to_div_mod]
  simp only [decide_eq_true_eq]; omega
theorem bit_11 (instr : Nat) : (instr >>> 11 &&& 1 ≠ 0) ↔ instr.testBit 11 = true := by
  rw [and_1, Nat.shiftRight_eq_div_pow, Nat.testBit_to_div_mod]
  simp only [decide_eq_true_eq]; omega

theorem field_lt_8 (instr lo : Nat) : field instr lo 3 < 8 := by
  unfold field; exact Nat.mod_lt _ (by norm_num)

theorem mem_read_plain (a : Nat) (m : Machine) (h : a % 65536 ≠ MR_KBSR) :
    mem_read a m = (m.memory (a % 65536), m) := by
  unfold mem_read
  simp only []
  rw [if_neg h]

theorem fetch_plain (m : Machine) (hwf : m.WF) (hp : m.reg R_PC ≠ MR_KBSR) :
    fetch m = (m.memory (m.reg R_PC), m.setReg R_PC (m.reg R_PC + 1)) := by
  have hlt := hwf.2 R_PC
  unfold fetch
  simp only []
  rw [mem_read_plain _ _ (by rw [Nat.mod_eq_of_lt hlt]; exact hp), Nat.mod_eq_of_lt hlt]
  rfl

theorem boot_WF (memory : Nat → Nat) (input : List Nat) (h : ∀ a, memory a < 65536) :
    (boot memory input).WF := by
  refine ⟨h, fun r => ?_⟩
  simp only [boot]
  split_ifs <;> simp

theorem preset_WF (memory : Nat → Nat) (input : List Nat) (r1 r2 r7 : Nat)
    (h : ∀ a, memory a < 65536) (h1 : r1 < 65536) (h2 : r2 < 65536) (h7 : r7 < 65536) :
    (preset memory input r1 r2 r7).WF := by
  refine ⟨h, fun r => ?_⟩
  simp only [preset]
  split_ifs <;> simp [h1, h2, h7]

/-! ## Instructions -/

/-- C4. When the fetched instruction is ADD, the destination register (bits
11..9) ends as (old first source (bits 8..6) + operand) mod 2^16, the operand
being the sign-extended low five bits when bit 5 is set and the old second
source (bits 2..0) otherwise; every other general register keeps its value. -/
theorem add_is_modular (m : Machine) (hop : (fetch m).1 >>> 12 = OP_ADD) :
    (step m).reg (field (fetch m).1 9 3) =
      (m.reg (field (fetch m).1 6 3) +
        (if (fetch m).1.testBit 5 then sign_extend (field (fetch m).1 0 5) 5
         else m.reg (field (fetch m).1 0 3))) % 65536 ∧
    ∀ r, r < 8 → r ≠ field (fetch m).1 9 3 → (step m).reg r = m.reg r := by
  have hd := field_lt_8 (fetch m).1 9
  have h1 := field_lt_8 (fetch m).1 6
  have h2 := field_lt_8 (fetch m).1 0
  unfold step
  simp only [OP_ADD] at hop
  simp only [execute, hop, bit_5, field_9_3, field_6_3]
  simp only [field_0_3, field_0_5]
  generalize field (fetch m).1 9 3 = DR at hd ⊢
  generalize field (fetch m).1 6 3 = SR1 at h1 ⊢
  generalize field (fetch m).1 0 3 = SR2 at h2 ⊢
  have e1 : SR1 ≠ 8 := by omega
  have e2 : SR2 ≠ 8 := by omega
  constructor
  · rw [update_flags_reg _ _ _ (by simp only [R_COND]; omega)]
    split_ifs with hb <;> simp [e1, e2]
  · intro r hr hne
    have e3 : r ≠ 8 := by omega
    rw [update_flags_reg _ _ _ (by simp only [R_COND]; omega)]
    split_ifs with hb <;> simp [hne, e3]

/-- With `R1 = 5`, `ADD R0, R1, #-1` gives `R0 = 4` and the flag `FL_POS`. -/
theorem add_is_modular_witness :
    (fetch (preset prog_add [] 5 0 0)).1 >>> 12 = OP_ADD ∧
    (step (preset prog_add [] 5 0 0)).reg R_R0 = 4 ∧
    (step (preset prog_add [] 5 0 0)).reg R_COND = FL_POS ∧
    ∀ r, r < 8 → r ≠ field (fetch (preset prog_add [] 5 0 0)).1 9 3 →
      (step (preset prog_add [] 5 0 0)).reg r = (preset prog_add [] 5 0 0).reg r :=
  ⟨by decide, by decide, by decide, (add_is_modular (preset prog_add [] 5 0 0) (by decide)).2⟩

/-- C5. When the fetched instruction is LEA and the PC was `p`, the
destination register ends as (p + 1 + sign_extend(bits 8..0, 9)) mod 2^16 and
the PC as (p + 1) mod 2^16. -/
theorem lea_uses_incremented_pc (m : Machine) (hop : (fetch m).1 >>> 12 = OP_LEA) :
    (step m).reg (field (fetch m).1 9 3) =
      (m.reg R_PC + 1 + sign_extend (field (fetch m).1 0 9) 9) % 65536 ∧
    (step m).reg R_PC = (m.reg R_PC + 1) % 65536 := by
  have hd := field_lt_8 (fetch m).1 9
  unfold step
  simp only [OP_LEA] at hop
  simp only [execute, hop, field_9_3]
  simp only [field_0_9]
  generalize field (fetch m).1 9 3 = DR at hd ⊢
  have e1 : (8 : Nat) ≠ DR := by omega
  constructor
  · rw [update_flags_reg _ _ _ (by simp only [R_COND]; omega)]
    simp
  · rw [update_flags_reg _ _ _ (by simp only [R_COND, R_PC]; omega)]
    simp [e1]

/-- At `p = 0x3000` with offset 2, `R0` becomes `0x3003` and the PC `0x3001`. -/
theorem lea_uses_incremented_pc_witness :
    (fetch (boot prog_lea [])).1 >>> 12 = OP_LEA ∧
    (step (boot prog_lea [])).reg R_R0 = 0x3003 ∧
    (step (boot prog_lea [])).reg R_PC = 0x3001 :=
  ⟨by decide, by decide,
   (lea_uses_incremented_pc (boot prog_lea []) (by decide)).2.trans (by decide)⟩

/-- C6. When the fetched instruction is BR with mask `c` (bits 11..9) and the
PC was `p`, the PC ends as (p + 1 + sign_extend(bits 8..0, 9)) mod 2^16 if
`c AND COND` is not zero and as (p + 1) mod 2^16 otherwise; `R0..R7` and
`COND` are unchanged, and for `p` other than `0xFE00` the instruction is the
cell at `p` and memory is unchanged. -/
theorem br_taken_iff_mask_meets_flags (m : Machine) (hwf : m.WF)
    (hop : (fetch m).1 >>> 12 = OP_BR) :
    (step m).reg R_PC =
      (if field (fetch m).1 9 3 &&& m.reg R_COND ≠ 0 then
        (m.reg R_PC + 1 + sign_extend (field (fetch m).1 0 9) 9) % 65536
      else (m.reg R_PC + 1) % 65536) ∧
    (∀ r, r < 8 → (step m).reg r = m.reg r) ∧
    (step m).reg R_COND = m.reg R_COND ∧
    (m.reg R_PC ≠ MR_KBSR →
      (fetch m).1 = m.memory (m.reg R_PC) ∧ (step m).memory = m.memory) := by
  have hc : (fetch m).2.reg R_COND = m.reg R_COND := by simp
  unfold step
  simp only [OP_BR] at hop
  simp only [execute, hop, field_9_3]
  simp only [field_0_9, hc]
  refine ⟨?_, ?_, ?_, ?_⟩
  · split_ifs <;> simp
  · intro r hr
    have e : r ≠ 8 := by omega
    split_ifs <;> simp [e]
  · split_ifs <;> simp
  · intro hp
    rw [fetch_plain m hwf hp]
    refine ⟨rfl, ?_⟩
    split_ifs <;> simp

/-- In the initial state (flag `FL_ZRO`) `BRz #5` at `0x3000` is taken: the
PC becomes `0x3006`. -/
theorem br_taken_iff_mask_meets_flags_witness :
    (boot prog_br []).WF ∧ (fetch (boot prog_br [])).1 >>> 12 = OP_BR ∧
    (step (boot prog_br [])).reg R_PC = 0x3006 ∧
    (step (boot prog_br [])).memory = (boot prog_br []).memory :=
  have hwf : (boot prog_br []).WF :=
    boot_WF _ _ (fun a => by simp only [prog_br]; split_ifs <;> simp)
  ⟨hwf, by decide,
   (br_taken_iff_mask_meets_flags (boot prog_br []) hwf (by decide)).1.trans (by decide),
   ((br_taken_iff_mask_meets_flags (boot prog_br []) hwf (by decide)).2.2.2 (by decide)).2⟩

/-- C7, as the code has it. When the fetched instruction is JSRR (opcode JSR,
bit 11 clear) with base register `r` (bits 8..6) and the PC was `p`, `R7`
ends as (p + 1) mod 2^16, and the PC ends as the old value of `r` only for
`r` other than `R7`: the link is written before the base is read, so
`JSRR R7` continues at (p + 1) mod 2^16. -/
theorem jsrr_links_before_reading_base (m : Machine) (hwf : m.WF)
    (hop : (fetch m).1 >>> 12 = OP_JSR) (h11 : (fetch m).1.testBit 11 = false) :
    (step m).reg R_R7 = (m.reg R_PC + 1) % 65536 ∧
    (step m).reg R_PC =
      (if field (fetch m).1 6 3 = 7 then (m.reg R_PC + 1) % 65536
       else m.reg (field (fetch m).1 6 3)) := by
  have hb := field_lt_8 (fetch m).1 6
  have hn : ¬ ((fetch m).1 >>> 11 &&& 1 ≠ 0) := by
    rw [bit_11, h11]; simp
  unfold step
  simp only [OP_JSR] at hop
  simp only [execute, hop, field_6_3, if_neg hn]
  generalize field (fetch m).1 6 3 = r at hb ⊢
  have e : r ≠ 8 := by omega
  constructor
  · simp
  · by_cases h7 : r = 7
    · simp [h7]
    · simp [h7, e]
      exact hwf.2 r

/-- With `R7 = 0x4000`, `JSRR R7` at `0x3000` leaves the PC at `0x3001`, not
at `0x4000`. -/
theorem jsrr_links_before_reading_base_witness :
    (preset prog_jsrr [] 0 0 0x4000).WF ∧
    (fetch (preset prog_jsrr [] 0 0 0x4000)).1 >>> 12 = OP_JSR ∧
    (fetch (preset prog_jsrr [] 0 0 0x4000)).1.testBit 11 = false ∧
    field (fetch (preset prog_jsrr [] 0 0 0x4000)).1 6 3 = 7 ∧
    (preset prog_jsrr [] 0 0 0x4000).reg R_R7 = 0x4000 ∧
    (step (preset prog_jsrr [] 0 0 0x4000)).reg R_PC = 0x3001 ∧
    (step (preset prog_jsrr [] 0 0 0x4000)).reg R_PC ≠ (preset prog_jsrr [] 0 0 0x4000).reg R_R7 :=
  have hwf : (preset prog_jsrr [] 0 0 0x4000).WF :=
    preset_WF _ _ _ _ _ (fun a => by simp only [prog_jsrr]; split_ifs <;> simp)
      (by decide) (by decide) (by decide)
  have h := (jsrr_links_before_reading_base (preset prog_jsrr [] 0 0 0x4000) hwf
    (by decide) (by decide)).2
  ⟨hwf, by decide, by decide, by decide, by decide, h.trans (by decide),
   fun e => absurd (h.symm.trans e) (by decide)⟩

/-- C8. With the PC at `p`, not `0xFE00`, a ST, STR or STI instruction at `p`
with source register SR (bits 11..9) leaves `reg[SR]` in the cell at the
effective address, (p + 1 + sext9) mod 2^16 for ST, (reg[BaseR] + sext6) mod
2^16 for STR, the content of the cell (p + 1 + sext9) mod 2^16 for STI (that
cell's address not being `0xFE00`), and changes no other cell, none of `R0..R7` and not
`COND`. -/
theorem stores_change_one_cell (m : Machine) (hwf : m.WF) (hp : m.reg R_PC ≠ MR_KBSR) :
    (m.memory (m.reg R_PC) >>> 12 = OP_ST →
      stores_only m (step m)
        ((m.reg R_PC + 1 + sign_extend (field (m.memory (m.reg R_PC)) 0 9) 9) % 65536)
        (m.reg (field (m.memory (m.reg R_PC)) 9 3))) ∧
    (m.memory (m.reg R_PC) >>> 12 = OP_STR →
      stores_only m (step m)
        ((m.reg (field (m.memory (m.reg R_PC)) 6 3) +
          sign_extend (field (m.memory (m.reg R_PC)) 0 6) 6) % 65536)
        (m.reg (field (m.memory (m.reg R_PC)) 9 3))) ∧
    (m.memory (m.reg R_PC) >>> 12 = OP_STI →
      (m.reg R_PC + 1 + sign_extend (field (m.memory (m.reg R_PC)) 0 9) 9) % 65536 ≠ MR_KBSR →
      stores_only m (step m)
        (m.memory ((m.reg R_PC + 1 + sign_extend (field (m.memory (m.reg R_PC)) 0 9) 9) % 65536))
        (m.reg (field (m.memory (m.reg R_PC)) 9 3))) := by
  have hd := field_lt_8 (m.memory (m.reg R_PC)) 9
  have hb := field_lt_8 (m.memory (m.reg R_PC)) 6
  have hmod : ∀ x y : Nat, ((x + 1) % 65536 + y) % 65536 = (x + 1 + y) % 65536 := by
    intro x y; omega
  unfold step stores_only
  rw [fetch_plain m hwf hp]
  generalize m.memory (m.reg R_PC) = instr at hd hb ⊢
  refine ⟨?_, ?_, ?_⟩
  · intro hop
    simp only [OP_ST] at hop
    simp only [execute, hop, field_9_3]
    simp only [field_0_9]
    generalize field instr 9 3 = SR at hd
    have e : SR ≠ 8 := by omega
    have hv := hwf.2 SR
    simp [mem_write, hmod, e, Nat.mod_eq_of_lt hv]
    refine ⟨fun a h1 h2 => absurd h2 h1, fun r hr h8 => ?_⟩
    omega
  · intro hop
    simp only [OP_STR] at hop
    simp only [execute, hop, field_9_3, field_6_3]
    simp only [field_0_6]
    generalize field instr 9 3 = SR at hd
    generalize field instr 6 3 = BaseR at hb
    have e : SR ≠ 8 := by omega
    have e' : BaseR ≠ 8 := by omega
    have hv := hwf.2 SR
    simp [mem_write, e, e', Nat.mod_eq_of_lt hv]
    refine ⟨fun a h1 h2 => absurd h2 h1, fun r hr h8 => ?_⟩
    omega
  · intro hop hk
    simp only [OP_STI] at hop
    simp only [execute, hop, field_9_3]
    simp only [field_0_9]
    generalize field instr 9 3 = SR at hd
    have e : SR ≠ 8 := by omega
    have hv := hwf.2 SR
    have hk' : ((m.setReg R_PC (m.reg R_PC + 1)).reg R_PC + sign_extend (field instr 0 9) 9) % 65536
        ≠ MR_KBSR := by
      simpa [hmod] using hk
    rw [mem_read_plain _ _ hk']
    have hcell := hwf.1 ((m.reg R_PC + 1 + sign_extend (field instr 0 9) 9) % 65536)
    simp [mem_write, hmod, e, Nat.mod_eq_of_lt hv, Nat.mod_eq_of_lt hcell]
    refine ⟨fun a h1 h2 => absurd h2 h1, fun r hr h8 => ?_⟩
    omega

/-- With `R1 = 0xBEEF`: `ST R1, #2` at `0x3000` writes the cell `0x3003`;
`STR R1, R2, #1` with `R2 = 0x4000` writes `0x4001`; `STI R1, #2` with the
pointer `0x5000` in `0x3003` writes `0x5000`. -/
theorem stores_change_one_cell_witness :
    (stores_only (preset prog_st [] 0xBEEF 0 0) (step (preset prog_st [] 0xBEEF 0 0))
      0x3003 0xBEEF) ∧
    (stores_only (preset prog_str [] 0xBEEF 0x4000 0)
      (step (preset prog_str [] 0xBEEF 0x4000 0)) 0x4001 0xBEEF) ∧
    (stores_only (preset prog_sti [] 0xBEEF 0 0) (step (preset prog_sti [] 0xBEEF 0 0))
      0x5000 0xBEEF) :=
  have w1 : (preset prog_st [] 0xBEEF 0 0).WF :=
    preset_WF _ _ _ _ _ (fun a => by simp only [prog_st]; split_ifs <;> simp)
      (by decide) (by decide) (by decide)
  have w2 : (preset prog_str [] 0xBEEF 0x4000 0).WF :=
    preset_WF _ _ _ _ _ (fun a => by simp only [prog_str]; split_ifs <;> simp)
      (by decide) (by decide) (by decide)
  have w3 : (preset prog_sti [] 0xBEEF 0 0).WF :=
    preset_WF _ _ _ _ _ (fun a => by simp only [prog_sti]; split_ifs <;> simp)
      (by decide) (by decide) (by decide)
  ⟨(stores_change_one_cell _ w1 (by decide)).1 (by decide),
   (stores_change_one_cell _ w2 (by decide)).2.1 (by decide),
   (stores_change_one_cell _ w3 (by decide)).2.2 (by decide) (by decide)⟩

/-! ## Keyboard status register -/

/-- C9. Reading `0xFE00` through `mem_read`: with no input pending it
returns 0, the status cell becomes 0 and the data cell `0xFE02` keeps its
value; with a byte `b` pending it returns `0x8000`, the status cell becomes
`0x8000`, the data cell `b`, and exactly that byte is consumed; every cell
other than `0xFE00` and `0xFE02` is unchanged in both cases. -/
theorem kbsr_read_polls_keyboard (m : Machine) :
    (m.input = [] →
      (mem_read MR_KBSR m).1 = 0 ∧
      (mem_read MR_KBSR m).2.memory MR_KBSR = 0 ∧
      (mem_read MR_KBSR m).2.memory MR_KBDR = m.memory MR_KBDR ∧
      (mem_read MR_KBSR m).2.input = []) ∧
    (∀ b rest, m.input = b :: rest → b < 256 →
      (mem_read MR_KBSR m).1 = 0x8000 ∧
      (mem_read MR_KBSR m).2.memory MR_KBSR = 0x8000 ∧
      (mem_read MR_KBSR m).2.memory MR_KBDR = b ∧
      (mem_read MR_KBSR m).2.input = rest) ∧
    (∀ a, a ≠ MR_KBSR → a ≠ MR_KBDR →
      (mem_read MR_KBSR m).2.memory a = m.memory a) := by
  refine ⟨?_, ?_, ?_⟩
  · intro h
    simp [mem_read, check_key, h]
  · intro b rest h hb
    have hb' : ((b % 256 : Nat) : Int) % 65536 = (b : Int) := by omega
    simp [mem_read, check_key, h, getchar, to_uint16, Machine.setMem]
    omega
  · intro a h1 h2
    simp only [MR_KBSR, MR_KBDR] at h1 h2
    unfold mem_read
    simp only [MR_KBSR, MR_KBDR]
    split_ifs <;> simp [h1, h2]

/-- With the byte `0x41` pending the read returns `0x8000`, stores `0x41` in
the data cell and empties the input; with nothing pending it returns 0. -/
theorem kbsr_read_polls_keyboard_witness :
    ((mem_read MR_KBSR (boot prog_add [0x41])).1 = 0x8000 ∧
      (mem_read MR_KBSR (boot prog_add [0x41])).2.memory MR_KBSR = 0x8000 ∧
      (mem_read MR_KBSR (boot prog_add [0x41])).2.memory MR_KBDR = 0x41 ∧
      (mem_read MR_KBSR (boot prog_add [0x41])).2.input = []) ∧
    ((mem_read MR_KBSR (boot prog_add [])).1 = 0 ∧
      (mem_read MR_KBSR (boot prog_add [])).2.memory MR_KBSR = 0 ∧
      (mem_read MR_KBSR (boot prog_add [])).2.memory MR_KBDR = prog_add MR_KBDR ∧
      (mem_read MR_KBSR (boot prog_add [])).2.input = []) :=
  ⟨(kbsr_read_polls_keyboard (boot prog_add [0x41])).2.1 0x41 [] rfl (by decide),
   (kbsr_read_polls_keyboard (boot prog_add [])).1 rfl⟩

/-! ## Image loader -/

theorem swap16_bytes (lo hi : Nat) (hlo : lo < 256) (hhi : hi < 256) :
    swap16 (lo + 256 * hi) = 256 * lo + hi := by
  unfold swap16
  have h1 : (lo + 256 * hi) >>> 8 = hi := by
    rw [Nat.shiftRight_eq_div_pow]; norm_num; omega
  have h2 : (lo + 256 * hi) <<< 8 = 2 ^ 8 * (lo + 256 * hi) := by
    rw [Nat.shiftLeft_eq, Nat.mul_comm]
  rw [h1, h2, ← Nat.mul_add_lt_is_or (by norm_num; exact hhi)]
  norm_num
  omega

theorem store_items_spec (items : List Nat) (p : Nat) (memory : Nat → Nat) (a : Nat) :
    store_items items p memory a =
      if p ≤ a ∧ a < p + items.length then items.getD (a - p) 0 else memory a := by
  induction items generalizing p memory with
  | nil =>
    rw [store_items, if_neg (by simp)]
  | cons x xs ih =>
    rw [store_items, ih]
    by_cases h1 : a = p
    · subst h1; simp
    · by_cases h2 : p + 1 ≤ a ∧ a < p + 1 + xs.length
      · have h3 : p ≤ a ∧ a < p + (x :: xs).length := by
          simp only [List.length_cons]; omega
        rw [if_pos h2, if_pos h3]
        have : a - p = (a - (p + 1)) + 1 := by omega
        rw [this, List.getD_cons_succ]
      · have h3 : ¬ (p ≤ a ∧ a < p + (x :: xs).length) := by
          simp only [List.length_cons]; omega
        rw [if_neg h2, if_neg h3, if_neg h1]

theorem swap_loop_spec (read p : Nat) (memory : Nat → Nat) (a : Nat) :
    swap_loop read p memory a =
      if p ≤ a ∧ a < p + read then swap16 (memory a) else memory a := by
  induction read generalizing p memory with
  | zero =>
    rw [swap_loop, if_neg (by simp)]
  | succ n ih =>
    rw [swap_loop, ih]
    by_cases h1 : a = p
    · subst h1; simp
    · by_cases h2 : p + 1 ≤ a ∧ a < p + 1 + n
      · have h3 : p ≤ a ∧ a < p + (n + 1) := by omega
        rw [if_pos h2, if_pos h3, if_neg h1]
      · have h3 : ¬ (p ≤ a ∧ a < p + (n + 1)) := by omega
        rw [if_neg h2, if_neg h3, if_neg h1]

theorem fread_getD (data : List Nat) (max_read i : Nat) (hi : i < (fread data max_read).length) :
    (fread data max_read).getD i 0 =
      data.getD (2 * i) 0 % 256 + 256 * (data.getD (2 * i + 1) 0 % 256) := by
  induction max_read generalizing data i with
  | zero => simp [fread] at hi
  | succ n ih =>
    match data with
    | [] => simp [fread] at hi
    | [_] => simp [fread] at hi
    | b0 :: b1 :: rest =>
      rw [fread] at hi ⊢
      cases i with
      | zero => simp
      | succ j =>
        simp only [List.length_cons, Nat.add_lt_add_iff_right] at hi
        have e1 : 2 * (j + 1) = (2 * j + 1) + 1 := by ring
        have e2 : 2 * (j + 1) + 1 = ((2 * j + 1) + 1) + 1 := by ring
        rw [List.getD_cons_succ, ih rest j hi, e2, e1]
        simp only [List.getD_cons_succ]

theorem getD_lt_256 (data : List Nat) (k : Nat) (hdata : ∀ b ∈ data, b < 256) :
    data.getD k 0 < 256 := by
  rw [List.getD_eq_getElem?_getD]
  cases h : data[k]? with
  | none => simp
  | some v =>
    simp only [Option.getD_some]
    exact hdata v (List.getElem?_mem h)

theorem fread_length_le (data : List Nat) (max_read : Nat) :
    2 * (fread data max_read).length ≤ data.length := by
  induction max_read generalizing data with
  | zero => simp [fread]
  | succ n ih =>
    match data with
    | [] => simp [fread]
    | [_] => simp [fread]
    | b0 :: b1 :: rest =>
      rw [fread]
      have := ih rest
      simp only [List.length_cons]
      omega

/-- C10. For a stream of a two-byte origin `b0 b1` followed by `n` complete
two-byte words, all bytes below 256, `read_image_file` returns; it loads at
most `n` words; each cell `origin + i` it loaded, `origin = 256*b0 + b1` and
`i` below the number of words loaded, holds `256*b[2+2i] + b[3+2i]` (`b` the
whole stream); and every cell outside `[origin, origin + number loaded)`
keeps its prior value. -/
theorem image_is_big_endian (b0 b1 : Nat) (data : List Nat) (n : Nat) (memory : Nat → Nat)
    (hb0 : b0 < 256) (hb1 : b1 < 256) (hdata : ∀ b ∈ data, b < 256)
    (hn : data.length = 2 * n) :
    ∃ loaded, read_image_file (b0 :: b1 :: data) memory = some loaded ∧
      words_read (b0 :: b1 :: data) ≤ n ∧
      (∀ i, i < words_read (b0 :: b1 :: data) →
        loaded (256 * b0 + b1 + i) =
          256 * (b0 :: b1 :: data).getD (2 + 2 * i) 0 + (b0 :: b1 :: data).getD (3 + 2 * i) 0) ∧
      (∀ a, ¬ (256 * b0 + b1 ≤ a ∧ a < 256 * b0 + b1 + words_read (b0 :: b1 :: data)) →
        loaded a = memory a) := by
  have ho : swap16 (b0 % 256 + 256 * (b1 % 256)) = 256 * b0 + b1 := by
    rw [Nat.mod_eq_of_lt hb0, Nat.mod_eq_of_lt hb1, swap16_bytes b0 b1 hb0 hb1]
  refine ⟨_, rfl, ?_, ?_, ?_⟩
  · simp only [words_read]
    have := fread_length_le data ((MEMORY_MAX - swap16 (b0 % 256 + 256 * (b1 % 256))) % 65536)
    omega
  · intro i hi
    simp only [words_read, ho] at hi
    simp only [ho]
    rw [swap_loop_spec, store_items_spec]
    rw [if_pos (by omega), if_pos (by omega)]
    have e : 256 * b0 + b1 + i - (256 * b0 + b1) = i := by omega
    rw [e, fread_getD _ _ _ hi]
    have e2 : 2 + 2 * i = (2 * i + 1) + 1 := by ring
    have e3 : 3 + 2 * i = ((2 * i + 1) + 1) + 1 := by ring
    rw [e2, e3]
    simp only [List.getD_cons_succ]
    rw [Nat.mod_eq_of_lt (getD_lt_256 data _ hdata), Nat.mod_eq_of_lt (getD_lt_256 data _ hdata)]
    exact swap16_bytes _ _ (getD_lt_256 data _ hdata) (getD_lt_256 data _ hdata)
  · intro a ha
    simp only [words_read, ho] at ha
    simp only [ho]
    rw [swap_loop_spec, store_items_spec, if_neg ha, if_neg ha]

/-- The image `30 00 00 01 00 02` loaded over `memory`: two words are read,
the cell `0x3000` holds 1, `0x3001` holds 2, and every other cell is as it
was. -/
theorem image_is_big_endian_witness :
    words_read image_two_words = 2 ∧
    ∀ memory : Nat → Nat, ∃ loaded, read_image_file image_two_words memory = some loaded ∧
      loaded 0x3000 = 1 ∧ loaded 0x3001 = 2 ∧
      ∀ a, a ≠ 0x3000 → a ≠ 0x3001 → loaded a = memory a := by
  refine ⟨by decide, fun memory => ?_⟩
  obtain ⟨loaded, hl, _, hw, hf⟩ :=
    image_is_big_endian 0x30 0x00 [0x00, 0x01, 0x00, 0x02] 2 memory (by decide) (by decide)
      (by decide) rfl
  have hwr : words_read (0x30 :: 0x00 :: [0x00, 0x01, 0x00, 0x02]) = 2 := by decide
  rw [hwr] at hw hf
  refine ⟨loaded, hl, ?_, ?_, ?_⟩
  · simpa using hw 0 (by decide)
  · simpa using hw 1 (by decide)
  · intro a h0 h1
    apply hf
    omega

theorem fread_length (data : List Nat) (max_read : Nat) :
    (fread data max_read).length = min (data.length / 2) max_read := by
  induction max_read generalizing data with
  | zero =>
    cases data with
    | nil => simp [fread]
    | cons b0 t => cases t <;> simp [fread]
  | succ n ih =>
    match data with
    | [] => simp [fread]
    | [_] => simp [fread]
    | b0 :: b1 :: rest =>
      rw [fread, List.length_cons, ih rest]
      simp only [List.length_cons]
      omega

/-- C11, as the code has it. For a stream of a two-byte origin followed by
`n` complete words, the number of words `read_image_file` reads is
min(n, 0x10000 - origin) for every origin but `0x0000`; at origin `0x0000`
the cap `MEMORY_MAX - origin` = 65536 does not fit the `uint16_t max_read`,
becomes 0, and no word is read. -/
theorem read_count_cap_wraps_at_origin_zero (b0 b1 : Nat) (data : List Nat) (n : Nat)
    (hb0 : b0 < 256) (hb1 : b1 < 256) (hn : data.length = 2 * n) :
    words_read (b0 :: b1 :: data) =
      if 256 * b0 + b1 = 0 then 0 else min n (0x10000 - (256 * b0 + b1)) := by
  have ho : swap16 (b0 % 256 + 256 * (b1 % 256)) = 256 * b0 + b1 := by
    rw [Nat.mod_eq_of_lt hb0, Nat.mod_eq_of_lt hb1, swap16_bytes b0 b1 hb0 hb1]
  simp only [words_read, ho, fread_length, hn]
  norm_num
  split_ifs with h
  · omega
  · omega

/-- The image `00 00 12 34` carries one word for origin 0, where the cap
`0x10000 - origin` would allow 65536; none is read. -/
theorem read_count_cap_wraps_at_origin_zero_witness :
    image_at_zero.length = 2 + 2 * 1 ∧
    words_read image_at_zero = 0 ∧
    min 1 (0x10000 - (256 * 0 + 0)) = 1 :=
  ⟨rfl,
   (read_count_cap_wraps_at_origin_zero 0 0 [0x12, 0x34] 1 (by decide) (by decide) rfl).trans
     (by decide),
   by decide⟩

/-! ## Fetch, in general -/

theorem fetch_at_kbsr (m : Machine) (h : m.reg R_PC % 65536 = MR_KBSR) :
    (fetch m).1 = 0 ∨ (fetch m).1 = 0x8000 := by
  unfold fetch mem_read
  simp only [h, if_true]
  split_ifs
  · right; simp
  · left; simp

theorem fetch_general (m : Machine) (h : m.reg R_PC % 65536 ≠ MR_KBSR) :
    fetch m = (m.memory (m.reg R_PC % 65536), m.setReg R_PC (m.reg R_PC + 1)) := by
  unfold fetch
  simp only []
  rw [mem_read_plain _ _ h]
  rfl

theorem fetch_of_op (m : Machine) (h0 : (fetch m).1 >>> 12 ≠ 0) (h8 : (fetch m).1 >>> 12 ≠ 8) :
    fetch m = (m.memory (m.reg R_PC % 65536), m.setReg R_PC (m.reg R_PC + 1)) := by
  apply fetch_general
  intro h
  rcases fetch_at_kbsr m h with e | e
  · rw [e] at h0; exact h0 (by decide)
  · rw [e] at h8; exact h8 (by decide)

@[simp] theorem update_flags_output (r : Nat) (m : Machine) :
    (update_flags r m).output = m.output := by
  unfold update_flags; split_ifs <;> rfl

@[simp] theorem update_flags_input (r : Nat) (m : Machine) :
    (update_flags r m).input = m.input := by
  unfold update_flags; split_ifs <;> rfl

@[simp] theorem update_flags_memory (r : Nat) (m : Machine) :
    (update_flags r m).memory = m.memory := by
  unfold update_flags; split_ifs <;> rfl

@[simp] theorem update_flags_status (r : Nat) (m : Machine) :
    (update_flags r m).status = m.status := by
  unfold update_flags; split_ifs <;> rfl

theorem with_r0_WF (memory : Nat → Nat) (input : List Nat) (r0 : Nat)
    (h : ∀ a, memory a < 65536) (h0 : r0 < 65536) : (with_r0 memory input r0).WF := by
  refine ⟨h, fun r => ?_⟩
  simp only [with_r0]
  split_ifs <;> simp [h0]

/-! ## String traps -/

theorem low_bytes_succ (memory : Nat → Nat) (a k : Nat) :
    low_bytes memory a (k + 1) = memory a % 256 :: low_bytes memory (a + 1) k := by
  unfold low_bytes
  rw [List.range_succ_eq_map]
  simp only [List.map_cons, List.map_map, Nat.add_zero]
  congr 1
  apply List.map_congr_left
  intro i _
  simp only [Function.comp, Nat.succ_eq_add_one]
  congr 2
  omega

theorem packed_bytes_succ (memory : Nat → Nat) (a k : Nat) :
    packed_bytes memory a (k + 1) =
      (if memory a / 256 ≠ 0 then [memory a % 256, memory a / 256] else [memory a % 256]) ++
        packed_bytes memory (a + 1) k := by
  unfold packed_bytes
  rw [List.range_succ_eq_map]
  simp only [List.map_cons, List.map_map, Nat.add_zero, List.flatten_cons]
  congr 2
  apply List.map_congr_left
  intro i _
  simp only [Function.comp, Nat.succ_eq_add_one]
  have : a + (i + 1) = a + 1 + i := by omega
  rw [this]

theorem puts_loop_spec (memory : Nat → Nat) (left c z : Nat)
    (hcz : c ≤ z) (hz : z < c + left) (hzero : memory z = 0)
    (hfirst : ∀ a, c ≤ a → a < z → memory a ≠ 0) :
    puts_loop memory left c = (low_bytes memory c (z - c), true) := by
  induction left generalizing c with
  | zero => omega
  | succ n ih =>
    rw [puts_loop]
    by_cases h0 : memory c = 0
    · have : z = c := by
        by_contra hne
        exact hfirst c (le_refl c) (by omega) h0
      subst this
      simp [h0, low_bytes]
    · have hne : c ≠ z := fun e => h0 (e ▸ hzero)
      have hstep := ih (c + 1) (by omega) (by omega) (fun a h1 h2 => hfirst a (by omega) h2)
      have hk : z - c = (z - (c + 1)) + 1 := by omega
      rw [if_pos h0, hstep, hk, low_bytes_succ]

theorem putsp_loop_spec (memory : Nat → Nat) (left c z : Nat)
    (hcz : c ≤ z) (hz : z < c + left) (hzero : memory z = 0)
    (hfirst : ∀ a, c ≤ a → a < z → memory a ≠ 0)
    (hcells : ∀ a, memory a < 65536) :
    putsp_loop memory left c = (packed_bytes memory c (z - c), true) := by
  induction left generalizing c with
  | zero => omega
  | succ n ih =>
    rw [putsp_loop]
    by_cases h0 : memory c = 0
    · have : z = c := by
        by_contra hne
        exact hfirst c (le_refl c) (by omega) h0
      subst this
      simp [h0, packed_bytes]
    · have hne : c ≠ z := fun e => h0 (e ▸ hzero)
      have hstep := ih (c + 1) (by omega) (by omega) (fun a h1 h2 => hfirst a (by omega) h2)
      have hk : z - c = (z - (c + 1)) + 1 := by omega
      have hhi : (memory c >>> 8) % 256 = memory c / 256 := by
        rw [Nat.shiftRight_eq_div_pow]
        have := hcells c
        norm_num
        omega
      rw [if_pos h0, hstep, hk, packed_bytes_succ]
      simp only [hhi, and_0xFF]
      split_ifs <;> simp

/-- C12. When the fetched instruction is TRAP with vector `0x22` and some
cell at an address between `R0` and `0xFFFF` holds 0, the walk stays inside
memory (the status is unchanged) and the step appends to the output exactly
the low bytes of the cells from `R0` up to, not including, the first zero
cell `z`; memory, `R0..R6` and `COND` are unchanged. -/
theorem puts_writes_until_zero (m : Machine) (hwf : m.WF)
    (hop : (fetch m).1 >>> 12 = OP_TRAP) (hvec : field (fetch m).1 0 8 = TRAP_PUTS)
    (hz : ∃ a, m.reg R_R0 ≤ a ∧ a ≤ 0xFFFF ∧ m.memory a = 0) :
    ∃ z, m.reg R_R0 ≤ z ∧ z ≤ 0xFFFF ∧ m.memory z = 0 ∧
      (∀ a, m.reg R_R0 ≤ a → a < z → m.memory a ≠ 0) ∧
      (step m).output = m.output ++ low_bytes m.memory (m.reg R_R0) (z - m.reg R_R0) ∧
      (step m).status = m.status ∧
      (step m).memory = m.memory ∧
      (∀ r, r < 7 → (step m).reg r = m.reg r) ∧
      (step m).reg R_COND = m.reg R_COND := by
  classical
  have hex : ∃ a, m.reg R_R0 ≤ a ∧ m.memory a = 0 := by
    obtain ⟨a, h1, _, h3⟩ := hz
    exact ⟨a, h1, h3⟩
  have hz1 := Nat.find_spec hex
  have hzmin : ∀ a, m.reg R_R0 ≤ a → a < Nat.find hex → m.memory a ≠ 0 :=
    fun a h1 h2 h3 => Nat.find_min hex h2 ⟨h1, h3⟩
  have hzle : Nat.find hex ≤ 0xFFFF := by
    obtain ⟨a, h1, h2, h3⟩ := hz
    exact le_trans (Nat.find_min' hex ⟨h1, h3⟩) h2
  generalize Nat.find hex = z at hz1 hzmin hzle
  refine ⟨z, hz1.1, hzle, hz1.2, hzmin, ?_⟩
  have hf := fetch_of_op m (by rw [hop]; decide) (by rw [hop]; decide)
  simp only [OP_TRAP] at hop
  simp only [TRAP_PUTS] at hvec
  unfold step
  simp only [execute, hop, trap, field_0_8, hvec]
  rw [hf]
  simp only [setReg_reg, setReg_memory]
  have e0 : ¬ (0 = 7) := by decide
  have e08 : ¬ (0 = 8) := by decide
  simp only [R_R0, R_R7, R_PC, e0, e08, if_false] at hz1 ⊢
  have hloop := puts_loop_spec m.memory (MEMORY_MAX - m.reg 0) (m.reg 0) z hz1.1
    (by have := hwf.2 0; simp only [MEMORY_MAX]; norm_num; omega) hz1.2 hzmin
  simp only [R_R0] at hloop
  rw [hloop]
  simp only [if_true]
  refine ⟨rfl, rfl, rfl, ?_, ?_⟩
  · intro r hr
    have e7 : r ≠ 7 := by omega
    have e8 : r ≠ 8 := by omega
    simp [Machine.print, e7, e8]
  · simp [Machine.print]

/-- The cells `0x0048, 0x0069, 0x0000` at `R0 = 0x4000`: PUTS writes `Hi`,
the bytes 72 and 105, and nothing else. -/
theorem puts_writes_until_zero_witness :
    (with_r0 prog_puts [] 0x4000).WF ∧
    (fetch (with_r0 prog_puts [] 0x4000)).1 >>> 12 = OP_TRAP ∧
    field (fetch (with_r0 prog_puts [] 0x4000)).1 0 8 = TRAP_PUTS ∧
    (step (with_r0 prog_puts [] 0x4000)).output = [72, 105] ∧
    (step (with_r0 prog_puts [] 0x4000)).status = Status.running ∧
    ∃ z, (step (with_r0 prog_puts [] 0x4000)).output =
      (with_r0 prog_puts [] 0x4000).output ++ low_bytes prog_puts 0x4000 (z - 0x4000) :=
  have hwf : (with_r0 prog_puts [] 0x4000).WF :=
    with_r0_WF _ _ _ (fun a => by simp only [prog_puts]; split_ifs <;> simp) (by decide)
  have h := puts_writes_until_zero (with_r0 prog_puts [] 0x4000) hwf (by decide) (by decide)
    ⟨0x4002, by decide, by decide, by decide⟩
  ⟨hwf, by decide, by decide, by decide, by decide,
   h.elim (fun z hz => ⟨z, hz.2.2.2.2.1⟩)⟩

/-- C13. When the fetched instruction is TRAP with vector `0x24` and some
cell at an address between `R0` and `0xFFFF` holds 0, the step appends to the
output, for each cell from `R0` up to, not including, the first zero cell
`z`, the low byte of the cell and then its high byte when that is not zero. -/
theorem putsp_writes_low_then_high (m : Machine) (hwf : m.WF)
    (hop : (fetch m).1 >>> 12 = OP_TRAP) (hvec : field (fetch m).1 0 8 = TRAP_PUTSP)
    (hz : ∃ a, m.reg R_R0 ≤ a ∧ a ≤ 0xFFFF ∧ m.memory a = 0) :
    ∃ z, m.reg R_R0 ≤ z ∧ z ≤ 0xFFFF ∧ m.memory z = 0 ∧
      (∀ a, m.reg R_R0 ≤ a → a < z → m.memory a ≠ 0) ∧
      (step m).output = m.output ++ packed_bytes m.memory (m.reg R_R0) (z - m.reg R_R0) ∧
      (step m).status = m.status := by
  classical
  have hex : ∃ a, m.reg R_R0 ≤ a ∧ m.memory a = 0 := by
    obtain ⟨a, h1, _, h3⟩ := hz
    exact ⟨a, h1, h3⟩
  have hz1 := Nat.find_spec hex
  have hzmin : ∀ a, m.reg R_R0 ≤ a → a < Nat.find hex → m.memory a ≠ 0 :=
    fun a h1 h2 h3 => Nat.find_min hex h2 ⟨h1, h3⟩
  have hzle : Nat.find hex ≤ 0xFFFF := by
    obtain ⟨a, h1, h2, h3⟩ := hz
    exact le_trans (Nat.find_min' hex ⟨h1, h3⟩) h2
  generalize Nat.find hex = z at hz1 hzmin hzle
  refine ⟨z, hz1.1, hzle, hz1.2, hzmin, ?_⟩
  have hf := fetch_of_op m (by rw [hop]; decide) (by rw [hop]; decide)
  simp only [OP_TRAP] at hop
  simp only [TRAP_PUTSP] at hvec
  unfold step
  simp only [execute, hop, trap, field_0_8, hvec]
  rw [hf]
  simp only [setReg_reg, setReg_memory]
  have e0 : ¬ (0 = 7) := by decide
  have e08 : ¬ (0 = 8) := by decide
  simp only [R_R0, R_R7, R_PC, e0, e08, if_false] at hz1 ⊢
  have hloop := putsp_loop_spec m.memory (MEMORY_MAX - m.reg 0) (m.reg 0) z hz1.1
    (by have := hwf.2 0; simp only [MEMORY_MAX]; norm_num; omega) hz1.2 hzmin hwf.1
  simp only [R_R0] at hloop
  rw [hloop]
  simp only [if_true]
  exact ⟨rfl, rfl⟩

/-- The cells `0x6948, 0x0021, 0x0000` at `R0 = 0x4000`: PUTSP writes `H`,
`i` and `!`, the bytes 72, 105 and 33; the zero high byte of the second cell
is not written. -/
theorem putsp_writes_low_then_high_witness :
    (with_r0 prog_putsp [] 0x4000).WF ∧
    (fetch (with_r0 prog_putsp [] 0x4000)).1 >>> 12 = OP_TRAP ∧
    field (fetch (with_r0 prog_putsp [] 0x4000)).1 0 8 = TRAP_PUTSP ∧
    (step (with_r0 prog_putsp [] 0x4000)).output = [72, 105, 33] ∧
    ∃ z, (step (with_r0 prog_putsp [] 0x4000)).output =
      (with_r0 prog_putsp [] 0x4000).output ++ packed_bytes prog_putsp 0x4000 (z - 0x4000) :=
  have hwf : (with_r0 prog_putsp [] 0x4000).WF :=
    with_r0_WF _ _ _ (fun a => by simp only [prog_putsp]; split_ifs <;> simp) (by decide)
  have h := putsp_writes_low_then_high (with_r0 prog_putsp [] 0x4000) hwf (by decide)
    (by decide) ⟨0x4002, by decide, by decide, by decide⟩
  ⟨hwf, by decide, by decide, by decide, h.elim (fun z hz => ⟨z, hz.2.2.2.2.1⟩)⟩

/-! ## HALT, reserved opcodes, undefined vectors, IN -/

/-- C14. When a running machine fetches TRAP with vector `0x25`, the step
ends with the status halted; the loop, however many turns it is given,
performs exactly that step and no other; the step leaves memory, `R0..R6`
and `COND` unchanged and sets `R7` to the incremented PC. -/
theorem halt_stops_the_loop (m : Machine) (hrun : m.status = Status.running)
    (hop : (fetch m).1 >>> 12 = OP_TRAP) (hvec : field (fetch m).1 0 8 = TRAP_HALT) :
    (step m).status = Status.halted ∧
    (∀ n, run (n + 1) m = step m) ∧
    (∀ n, run n (step m) = step m) ∧
    (step m).memory = m.memory ∧
    (∀ r, r < 7 → (step m).reg r = m.reg r) ∧
    (step m).reg R_COND = m.reg R_COND ∧
    (step m).reg R_R7 = (m.reg R_PC + 1) % 65536 := by
  have hf := fetch_of_op m (by rw [hop]; decide) (by rw [hop]; decide)
  have hst : (step m).status = Status.halted := by
    simp only [OP_TRAP] at hop
    simp only [TRAP_HALT] at hvec
    unfold step
    simp only [execute, hop, trap, field_0_8, hvec]
  have hrest : ∀ n, run n (step m) = step m := by
    intro n
    cases n with
    | zero => rfl
    | succ k => rw [run, hst]; simp
  refine ⟨hst, ?_, hrest, ?_, ?_, ?_, ?_⟩
  · intro n
    rw [run, if_pos hrun, hrest]
  all_goals
    simp only [OP_TRAP] at hop
    simp only [TRAP_HALT] at hvec
    unfold step
    simp only [execute, hop, trap, field_0_8, hvec]
    rw [hf]
  · rfl
  · intro r hr
    have e7 : r ≠ 7 := by omega
    have e8 : r ≠ 8 := by omega
    simp [Machine.print, e7, e8]
  · simp [Machine.print]
  · simp [Machine.print]

/-- HALT at `0x3000` in the initial state: the run of any length is the one
step, the status is halted, `R7` is `0x3001`. -/
theorem halt_stops_the_loop_witness :
    (fetch (boot prog_halt [])).1 >>> 12 = OP_TRAP ∧
    field (fetch (boot prog_halt [])).1 0 8 = TRAP_HALT ∧
    (run 1000 (boot prog_halt [])).status = Status.halted ∧
    (run 1000 (boot prog_halt [])).reg R_R7 = 0x3001 ∧
    (run 1000 (boot prog_halt [])).output = halt_notice :=
  have h := halt_stops_the_loop (boot prog_halt []) rfl (by decide) (by decide)
  ⟨by decide, by decide,
   (congrArg Machine.status (h.2.1 999)).trans h.1,
   (congrArg (fun s => s.reg R_R7) (h.2.1 999)).trans (h.2.2.2.2.2.2.trans (by decide)),
   (congrArg Machine.output (h.2.1 999)).trans (by decide)⟩

/-- C15. With the PC at `p`, not `0xFE00`, and the top four bits of the cell
at `p` equal to RTI (8) or RES (13), whatever the low twelve bits, the step
ends aborted; `R0..R7`, `COND`, every memory cell, the input and the output
are as before the fetch, and the PC is (p + 1) mod 2^16. -/
theorem reserved_opcodes_abort (m : Machine) (hwf : m.WF) (hp : m.reg R_PC ≠ MR_KBSR)
    (hop : m.memory (m.reg R_PC) >>> 12 = OP_RTI ∨ m.memory (m.reg R_PC) >>> 12 = OP_RES) :
    (step m).status = Status.aborted ∧
    (∀ r, r < 8 → (step m).reg r = m.reg r) ∧
    (step m).reg R_COND = m.reg R_COND ∧
    (step m).memory = m.memory ∧
    (step m).reg R_PC = (m.reg R_PC + 1) % 65536 ∧
    (step m).input = m.input ∧ (step m).output = m.output := by
  have hstep : step m = { m.setReg R_PC (m.reg R_PC + 1) with status := Status.aborted } := by
    unfold step
    rw [fetch_plain m hwf hp]
    rcases hop with h | h <;> simp only [OP_RTI, OP_RES] at h <;> simp only [execute, h]
  rw [hstep]
  refine ⟨rfl, ?_, ?_, rfl, ?_, rfl, rfl⟩
  · intro r hr
    have e : r ≠ 8 := by omega
    simp [e]
  · simp
  · simp

/-- The words `0x8123` (RTI) and `0xDFFF` (RES) at `0x3000` both abort with
the PC at `0x3001`. -/
theorem reserved_opcodes_abort_witness :
    ((boot prog_rti []).WF ∧ (step (boot prog_rti [])).status = Status.aborted ∧
      (step (boot prog_rti [])).reg R_PC = 0x3001 ∧
      (step (boot prog_rti [])).memory = prog_rti) ∧
    ((boot prog_res []).WF ∧ (step (boot prog_res [])).status = Status.aborted ∧
      (step (boot prog_res [])).reg R_PC = 0x3001 ∧
      (step (boot prog_res [])).memory = prog_res) :=
  have w1 : (boot prog_rti []).WF :=
    boot_WF _ _ (fun a => by simp only [prog_rti]; split_ifs <;> simp)
  have w2 : (boot prog_res []).WF :=
    boot_WF _ _ (fun a => by simp only [prog_res]; split_ifs <;> simp)
  have h1 := reserved_opcodes_abort (boot prog_rti []) w1 (by decide) (Or.inl (by decide))
  have h2 := reserved_opcodes_abort (boot prog_res []) w2 (by decide) (Or.inr (by decide))
  ⟨⟨w1, h1.1, h1.2.2.2.2.1.trans (by decide), h1.2.2.2.1⟩,
   ⟨w2, h2.1, h2.2.2.2.2.1.trans (by decide), h2.2.2.2.1⟩⟩

/-- C16. With the PC at `p`, not `0xFE00`, and at `p` a TRAP whose vector
(bits 7..0) is below `0x20` or above `0x25`, the step leaves the status, the
output, the input, memory and every register but `R7` and the PC unchanged;
`R7` and the PC both end as (p + 1) mod 2^16. -/
theorem undefined_trap_does_nothing (m : Machine) (hwf : m.WF) (hp : m.reg R_PC ≠ MR_KBSR)
    (hop : m.memory (m.reg R_PC) >>> 12 = OP_TRAP)
    (hvec : field (m.memory (m.reg R_PC)) 0 8 < 0x20 ∨ 0x25 < field (m.memory (m.reg R_PC)) 0 8) :
    (step m).status = m.status ∧ (step m).output = m.output ∧ (step m).input = m.input ∧
    (step m).memory = m.memory ∧
    (∀ r, r ≠ R_R7 → r ≠ R_PC → (step m).reg r = m.reg r) ∧
    (step m).reg R_PC = (m.reg R_PC + 1) % 65536 ∧
    (step m).reg R_R7 = (m.reg R_PC + 1) % 65536 := by
  have hstep : step m = (m.setReg R_PC (m.reg R_PC + 1)).setReg R_R7 ((m.reg R_PC + 1) % 65536) := by
    unfold step
    rw [fetch_plain m hwf hp]
    simp only [OP_TRAP] at hop
    simp only [execute, hop, trap, field_0_8]
    split <;> first
      | (rename_i h; rw [h] at hvec; exact absurd hvec (by decide))
      | simp
  rw [hstep]
  refine ⟨rfl, rfl, rfl, rfl, ?_, ?_, ?_⟩
  · intro r h7 h8
    simp only [R_R7, R_PC] at h7 h8
    simp [h7, h8]
  · simp
  · simp

/-- The word `TRAP 0x26` at `0x3000` in the initial state: still running,
nothing written, `R7` and the PC at `0x3001`. -/
theorem undefined_trap_does_nothing_witness :
    (boot prog_trap26 []).WF ∧
    (step (boot prog_trap26 [])).status = Status.running ∧
    (step (boot prog_trap26 [])).output = [] ∧
    (step (boot prog_trap26 [])).reg R_PC = 0x3001 ∧
    (step (boot prog_trap26 [])).reg R_R7 = 0x3001 :=
  have hwf : (boot prog_trap26 []).WF :=
    boot_WF _ _ (fun a => by simp only [prog_trap26]; split_ifs <;> simp)
  have h := undefined_trap_does_nothing (boot prog_trap26 []) hwf (by decide) (by decide)
    (Or.inr (by decide))
  ⟨hwf, h.1, h.2.1, h.2.2.2.2.2.1.trans (by decide), h.2.2.2.2.2.2.trans (by decide)⟩

/-- C17, as the code has it. When the fetched instruction is TRAP with
vector `0x23` and the byte `b` is next on the input, the step writes the
prompt and then `b`, consumes `b`, and leaves in `R0` the byte passed through
the signed `char c`: `b` itself below `0x80`, but `0xFF00 + b` from `0x80`
on, with the flag `FL_NEG` instead of `FL_POS`. -/
theorem in_stores_sign_extended_char (m : Machine) (b : Nat) (rest : List Nat)
    (hop : (fetch m).1 >>> 12 = OP_TRAP) (hvec : field (fetch m).1 0 8 = TRAP_IN)
    (hin : m.input = b :: rest) (hb : b < 256) :
    (step m).reg R_R0 = (if b < 128 then b else 0xFF00 + b) ∧
    (step m).output = m.output ++ prompt ++ [b] ∧
    (step m).input = rest ∧
    (step m).reg R_COND =
      (if b = 0 then FL_ZRO else if b < 128 then FL_POS else FL_NEG) := by
  have hf := fetch_of_op m (by rw [hop]; decide) (by rw [hop]; decide)
  have hg : ∀ s : Machine, s.input = b :: rest →
      getchar s = (((b % 256 : Nat) : Int), { s with input := rest }) := by
    intro s hs
    unfold getchar
    rw [hs]
  have hc : to_char ((b % 256 : Nat) : Int) = if b < 128 then (b : Int) else (b : Int) - 256 := by
    unfold to_char
    split_ifs <;> omega
  have hu : to_uint16 (to_char ((b % 256 : Nat) : Int)) = if b < 128 then b else 0xFF00 + b := by
    rw [hc]
    unfold to_uint16
    split_ifs <;> omega
  have hbyte : (to_char ((b % 256 : Nat) : Int) % 256).toNat = b := by
    rw [hc]
    split_ifs <;> omega
  simp only [OP_TRAP] at hop
  simp only [TRAP_IN] at hvec
  unfold step
  simp only [execute, hop, trap, field_0_8, hvec]
  rw [hf]
  simp only []
  rw [hg _ (by simpa [Machine.print] using hin)]
  simp only [hu]
  generalize to_char ((b % 256 : Nat) : Int) = c at hbyte
  have hlt : (if b < 128 then b else 0xFF00 + b) < 65536 := by split_ifs <;> omega
  refine ⟨?_, ?_, ?_, ?_⟩
  · rw [update_flags_reg _ _ _ (by decide)]
    simp [Nat.mod_eq_of_lt hlt]
  · rw [update_flags_output, setReg_output]
    simp only [Machine.putc, Machine.print, setReg_output, hbyte]
  · rw [update_flags_input, setReg_input]
    rfl
  · rw [update_flags_spec _ _ (by decide) (by simp; exact Nat.mod_lt _ (by norm_num))]
    rw [update_flags_reg _ _ _ (by decide)]
    simp only [setReg_reg, R_R0, if_true, Nat.mod_eq_of_lt hlt]
    unfold flag_of
    have htb := testBit_top 16 (if b < 128 then b else 0xFF00 + b) (by norm_num)
      (by norm_num; exact hlt)
    rw [htb]
    by_cases h0 : b = 0
    · simp [h0]
    · by_cases h1 : b < 128
      · have : ¬ (32768 ≤ b) := by omega
        simp [h0, h1, this]
      · have : 32768 ≤ 65280 + b := by omega
        simp [h0, h1, this]

/-- The byte `0xE9` on the input: IN leaves `R0 = 0xFFE9` and the flag
`FL_NEG`, where the byte value is `0x00E9` and its flag `FL_POS`. -/
theorem in_stores_sign_extended_char_witness :
    (fetch (boot prog_in [0xE9])).1 >>> 12 = OP_TRAP ∧
    field (fetch (boot prog_in [0xE9])).1 0 8 = TRAP_IN ∧
    (step (boot prog_in [0xE9])).reg R_R0 = 0xFFE9 ∧
    (step (boot prog_in [0xE9])).reg R_R0 ≠ 0xE9 ∧
    (step (boot prog_in [0xE9])).reg R_COND = FL_NEG ∧
    (step (boot prog_in [0xE9])).output = prompt ++ [0xE9] :=
  have h := in_stores_sign_extended_char (boot prog_in [0xE9]) 0xE9 [] (by decide) (by decide)
    rfl (by decide)
  ⟨by decide, by decide, h.1.trans (by decide),
   fun e => absurd (h.1.symm.trans e) (by decide),
   h.2.2.2.trans (by decide), h.2.1⟩

/-! ## Call and return, indirect load, branches -/

theorem reachable_one_flag (m : Machine) (h : Reachable m) : one_flag (m.reg R_COND) := by
  induction h with
  | boot memory input => right; left; rfl
  | step s _ _ ih =>
    rcases step_cond s with h | h
    · rw [h]; exact ih
    · exact h

/-- C18. With a running machine whose PC is at `p`, the cell at `p` a long
JSR (bit 11 set) with offset field `f`, and the cell at the target
`t = (p + 1 + sign_extend(f, 11)) mod 2^16` a JMP through `R7`, `p` and `t`
other than `0xFE00`: after two turns of the loop the PC is (p + 1) mod 2^16,
and `R0..R6`, `COND` and memory are as before the JSR. -/
theorem jsr_then_jmp_r7_returns (m : Machine) (hwf : m.WF) (hrun : m.status = Status.running)
    (hp : m.reg R_PC ≠ MR_KBSR)
    (hop : m.memory (m.reg R_PC) >>> 12 = OP_JSR)
    (hlong : (m.memory (m.reg R_PC)).testBit 11 = true)
    (ht : (m.reg R_PC + 1 + sign_extend (field (m.memory (m.reg R_PC)) 0 11) 11) % 65536
      ≠ MR_KBSR)
    (hjmp : m.memory ((m.reg R_PC + 1 + sign_extend (field (m.memory (m.reg R_PC)) 0 11) 11)
      % 65536) >>> 12 = OP_JMP)
    (hr7 : field (m.memory ((m.reg R_PC + 1 +
      sign_extend (field (m.memory (m.reg R_PC)) 0 11) 11) % 65536)) 6 3 = 7) :
    (run 2 m).reg R_PC = (m.reg R_PC + 1) % 65536 ∧
    (∀ r, r < 7 → (run 2 m).reg r = m.reg r) ∧
    (run 2 m).reg R_COND = m.reg R_COND ∧
    (run 2 m).memory = m.memory := by
  have hmod : ∀ x y : Nat, ((x + 1) % 65536 + y) % 65536 = (x + 1 + y) % 65536 := by
    intro x y; omega
  generalize ht' : (m.reg R_PC + 1 + sign_extend (field (m.memory (m.reg R_PC)) 0 11) 11)
    % 65536 = t at ht hjmp hr7
  have hy : (m.memory (m.reg R_PC) >>> 11 &&& 1 ≠ 0) := (bit_11 _).2 hlong
  have h1 : step m =
      ((m.setReg R_PC (m.reg R_PC + 1)).setReg R_R7 ((m.reg R_PC + 1) % 65536)).setReg R_PC
        ((m.reg R_PC + 1) % 65536 + sign_extend (field (m.memory (m.reg R_PC)) 0 11) 11) := by
    unfold step
    rw [fetch_plain m hwf hp]
    simp only [OP_JSR] at hop
    simp only [execute, hop, if_pos hy]
    simp only [field_0_11]
    simp only [setReg_reg, R_PC, R_R7, if_true]
    have e : ¬ (8 = 7) := by decide
    simp only [e, if_false, if_true]
  have ht65 : t < 65536 := by rw [← ht']; exact Nat.mod_lt _ (by norm_num)
  have hpc1 : (step m).reg R_PC = t := by
    rw [h1]; simp only [setReg_reg, if_true, hmod]; exact ht'
  have hmem1 : (step m).memory = m.memory := by rw [h1]; rfl
  have hst1 : (step m).status = Status.running := by rw [h1]; exact hrun
  have hf2 : fetch (step m) = (m.memory t, (step m).setReg R_PC (t + 1)) := by
    rw [fetch_general (step m) (by rw [hpc1, Nat.mod_eq_of_lt ht65]; exact ht)]
    rw [hpc1, Nat.mod_eq_of_lt ht65, hmem1]
  have h2 : run 2 m = ((step m).setReg R_PC (t + 1)).setReg R_PC ((step m).reg R_R7) := by
    rw [run, if_pos hrun, run, if_pos hst1, run]
    show execute (fetch (step m)).1 (fetch (step m)).2 = _
    rw [hf2]
    simp only [OP_JMP] at hjmp
    simp only [execute, hjmp, field_6_3, hr7]
    simp
  rw [h2, h1]
  refine ⟨?_, ?_, ?_, rfl⟩
  · simp
  · intro r hr
    have e7 : r ≠ 7 := by omega
    have e8 : r ≠ 8 := by omega
    simp [e7, e8]
  · simp

/-- The call `JSR #0xFF` at `0x3000` to `JMP R7` at `0x3100`: two turns
later the PC is `0x3001`. -/
theorem jsr_then_jmp_r7_returns_witness :
    (boot prog_call []).WF ∧
    (step (boot prog_call [])).reg R_PC = 0x3100 ∧
    (run 2 (boot prog_call [])).reg R_PC = 0x3001 ∧
    (run 2 (boot prog_call [])).memory = prog_call :=
  have hwf : (boot prog_call []).WF :=
    boot_WF _ _ (fun a => by simp only [prog_call]; split_ifs <;> simp)
  have h := jsr_then_jmp_r7_returns (boot prog_call []) hwf rfl (by decide) (by decide)
    (by decide) (by decide) (by decide) (by decide)
  ⟨hwf, by decide, h.1.trans (by decide), h.2.2.2⟩

/-- C19. When the fetched instruction is LDI with destination DR (bits
11..9) and offset field `f`, the PC was `p`, and neither
`a1 = (p + 1 + sign_extend(f, 9)) mod 2^16` nor `memory[a1]` is `0xFE00`, the
step leaves `memory[memory[a1]]` (memory as before the step) in DR, memory
unchanged and every general register other than DR unchanged. -/
theorem ldi_loads_through_pointer (m : Machine) (hwf : m.WF)
    (hop : (fetch m).1 >>> 12 = OP_LDI)
    (h1 : (m.reg R_PC + 1 + sign_extend (field (fetch m).1 0 9) 9) % 65536 ≠ MR_KBSR)
    (h2 : m.memory ((m.reg R_PC + 1 + sign_extend (field (fetch m).1 0 9) 9) % 65536)
      ≠ MR_KBSR) :
    (step m).reg (field (fetch m).1 9 3) =
      m.memory (m.memory ((m.reg R_PC + 1 + sign_extend (field (fetch m).1 0 9) 9) % 65536)) ∧
    (step m).memory = m.memory ∧
    (∀ r, r < 8 → r ≠ field (fetch m).1 9 3 → (step m).reg r = m.reg r) := by
  have hmod : ∀ x y : Nat, ((x + 1) % 65536 + y) % 65536 = (x + 1 + y) % 65536 := by
    intro x y; omega
  have hd := field_lt_8 (fetch m).1 9
  have hf := fetch_of_op m (by rw [hop]; decide) (by rw [hop]; decide)
  unfold step
  simp only [OP_LDI] at hop
  simp only [execute, hop, field_9_3]
  simp only [field_0_9]
  generalize field (fetch m).1 9 3 = DR at hd ⊢
  generalize field (fetch m).1 0 9 = f at h1 h2 ⊢
  rw [hf]
  simp only []
  have ha1 : ((m.setReg R_PC (m.reg R_PC + 1)).reg R_PC + sign_extend f 9) % 65536 =
      (m.reg R_PC + 1 + sign_extend f 9) % 65536 := by
    simp [hmod]
  generalize ha : (m.reg R_PC + 1 + sign_extend f 9) % 65536 = a1 at h1 h2 ha1
  have hin : mem_read ((m.setReg R_PC (m.reg R_PC + 1)).reg R_PC + sign_extend f 9)
      (m.setReg R_PC (m.reg R_PC + 1)) = (m.memory a1, m.setReg R_PC (m.reg R_PC + 1)) := by
    rw [mem_read_plain _ _ (by rw [ha1]; exact h1), ha1]
    rfl
  rw [hin]
  simp only []
  have hc2 := hwf.1 a1
  rw [mem_read_plain _ _ (by rw [Nat.mod_eq_of_lt hc2]; exact h2), Nat.mod_eq_of_lt hc2]
  simp only [setReg_memory]
  have hv := hwf.1 (m.memory a1)
  refine ⟨?_, ?_, ?_⟩
  · rw [update_flags_reg _ _ _ (by simp only [R_COND]; omega)]
    simp [Nat.mod_eq_of_lt hv]
  · rw [update_flags_memory]; rfl
  · intro r hr hne
    have e8 : r ≠ 8 := by omega
    rw [update_flags_reg _ _ _ (by simp only [R_COND]; omega)]
    simp [hne, e8]

/-- The instruction `LDI R0, #2` at `0x3000` with the pointer `0x5000` in
the cell `0x3003` and `0x1234` in the cell `0x5000`: `R0` becomes `0x1234`. -/
theorem ldi_loads_through_pointer_witness :
    (boot prog_ldi []).WF ∧
    (fetch (boot prog_ldi [])).1 >>> 12 = OP_LDI ∧
    (step (boot prog_ldi [])).reg R_R0 = 0x1234 ∧
    (step (boot prog_ldi [])).memory = prog_ldi :=
  have hwf : (boot prog_ldi []).WF :=
    boot_WF _ _ (fun a => by simp only [prog_ldi]; split_ifs <;> simp)
  have h := ldi_loads_through_pointer (boot prog_ldi []) hwf (by decide) (by decide)
    (by decide)
  ⟨hwf, by decide, h.1.trans (by decide), h.2.1⟩

/-- C20. When the fetched instruction is BR: in a state reachable from the
initial state a mask of 111 makes the PC (p + 1 + sign_extend(bits 8..0, 9))
mod 2^16, the branch is taken; in any state at all a mask of 000 makes the PC
(p + 1) mod 2^16, the branch is not taken, whatever the offset field. -/
theorem br_always_and_never (m : Machine) (hop : (fetch m).1 >>> 12 = OP_BR) :
    (Reachable m → field (fetch m).1 9 3 = 7 →
      (step m).reg R_PC =
        (m.reg R_PC + 1 + sign_extend (field (fetch m).1 0 9) 9) % 65536) ∧
    (field (fetch m).1 9 3 = 0 → (step m).reg R_PC = (m.reg R_PC + 1) % 65536) := by
  have hc : (fetch m).2.reg R_COND = m.reg R_COND := by simp
  unfold step
  simp only [OP_BR] at hop
  simp only [execute, hop, field_9_3]
  simp only [field_0_9, hc]
  constructor
  · intro hr h7
    have hflag := reachable_one_flag m hr
    have hne : 7 &&& m.reg R_COND ≠ 0 := by
      rcases hflag with h | h | h <;> rw [h] <;> decide
    rw [h7, if_pos hne]
    simp
  · intro h0
    rw [h0]
    simp

/-- From the initial state `BRnzp #5` moves the PC to `0x3006`, and the BR
with the empty mask and the same offset moves it to `0x3001`. -/
theorem br_always_and_never_witness :
    (Reachable (boot prog_br_always []) ∧
      field (fetch (boot prog_br_always [])).1 9 3 = 7 ∧
      (step (boot prog_br_always [])).reg R_PC = 0x3006) ∧
    (field (fetch (boot prog_br_never [])).1 9 3 = 0 ∧
      field (fetch (boot prog_br_never [])).1 0 9 = 5 ∧
      (step (boot prog_br_never [])).reg R_PC = 0x3001) :=
  ⟨⟨Reachable.boot _ _, by decide,
    ((br_always_and_never (boot prog_br_always []) (by decide)).1 (Reachable.boot _ _)
      (by decide)).trans (by decide)⟩,
   ⟨by decide, by decide,
    ((br_always_and_never (boot prog_br_never []) (by decide)).2 (by decide)).trans
      (by decide)⟩⟩

end LC3
